import Mathlib

/-!
Verification of `scripts/extract_test_fixture.py` (FCC ULS test-fixture
extractor).  The Python source is shallowly embedded: pure functions become
Lean functions over `String`/`List String`/`Int`; the process-dependent
builtin `hash` is a parameter (a `PyHash` bundle of hash functions, one per
call site); the `random` module stream is a parameter (`Nat → Nat` draw
oracles feeding the pool-based partial-shuffle algorithm that CPython's
`random.sample` uses for the small pools arising here); CPython's
binary64 arithmetic `int(r * 0.7)` etc. is embedded exactly as integer
rounding of the product with the IEEE-754 double nearest the literal.
-/

namespace ULS

/-! ### Python string primitives -/

/-- Characters stripped by Python `str.strip()` with no argument
(ASCII whitespace; the data handled here is latin-1 text where these are
the whitespace characters that occur). -/
def isPyWs (c : Char) : Bool :=
  c = ' ' || c = '\t' || c = '\n' || c = '\r' || c = '\x0b' || c = '\x0c'

/-- Characters stripped by `str.rstrip('\r\n')`. -/
def isCRLF (c : Char) : Bool := c = '\r' || c = '\n'

/-- Python `line.strip()`. -/
def pyStrip (s : String) : String :=
  ⟨((s.data.dropWhile isPyWs).reverse.dropWhile isPyWs).reverse⟩

/-- Python `line.rstrip('\r\n')`. -/
def pyRstripCRLF (s : String) : String :=
  ⟨(s.data.reverse.dropWhile isCRLF).reverse⟩

/-- Python `s.split('|')` on the character list. -/
def splitPipe : List Char → List (List Char)
  | [] => [[]]
  | c :: rest =>
    if c = '|' then [] :: splitPipe rest
    else
      match splitPipe rest with
      | f :: fs => (c :: f) :: fs
      | [] => [[c]]

/-- Python `'|'.join(fields)` on character lists. -/
def joinPipe : List (List Char) → List Char
  | [] => []
  | [f] => f
  | f :: fs => f ++ '|' :: joinPipe fs

/-- Python `'|'.join(fields)` on strings. -/
def pyJoinPipe (fields : List String) : String :=
  ⟨joinPipe (fields.map String.data)⟩

/-! ### Record schema (`RECORD_TYPES`, `VALID_RECORD_PREFIXES`) -/

/-- `RECORD_TYPES`: known record types and the 0-indexed position of their
unique system identifier field. -/
def RECORD_TYPES : List (String × Nat) :=
  [("HD", 1), ("EN", 1), ("AM", 1), ("HS", 1),
   ("CO", 1), ("SC", 1), ("LA", 1), ("SF", 1)]

/-- The record-type tags of `RECORD_TYPES`, in insertion order. -/
def RECORD_TYPE_KEYS : List String := RECORD_TYPES.map Prod.fst

/-- `VALID_RECORD_PREFIXES`: tags recognized as starting a new record
(continuation detection). -/
def VALID_RECORD_TAGS : List String :=
  ["HD", "EN", "AM", "HS", "CO", "SC", "LA", "SF",
   "AD", "LO", "L2", "L3", "L4", "L5", "L6"]

/-- `parse_dat_line`: strip the trailing line terminator, split on the pipe
delimiter, and return `(record_type, fields)` where `record_type` is the
leading field (`''` is impossible only for an empty split, which cannot
happen: `split` always yields at least one field). -/
def parse_dat_line (line : String) : String × List String :=
  let fields := (splitPipe (pyRstripCRLF line).data).map (fun cs => (⟨cs⟩ : String))
  (fields.headD "", fields)

/-- `get_usi`: the identifier field of a record, via the per-type position
table (default position 1), `none` when the field list is too short. -/
def get_usi (record_type : String) (fields : List String) : Option String :=
  let pos := ((RECORD_TYPES.lookup record_type).getD 1)
  if pos < fields.length then some (fields.getD pos "") else none

/-! ### Continuation reassembler (`read_dat_from_zip`) -/

/-- A reassembled record: type tag, split fields, and the raw pending-line
text it was flushed from. -/
structure RawRecord where
  rt : String
  fields : List String
  raw : String
deriving DecidableEq

/-- Flushing a pending line into a record. -/
def flushPending (p : String) : RawRecord :=
  let pr := parse_dat_line p
  ⟨pr.1, pr.2, p⟩

/-- Merging a continuation line into the pending buffer:
`pending.rstrip('\r\n') + ' ' + line.strip()`. -/
def mergeCont (p line : String) : String :=
  pyRstripCRLF p ++ " " ++ pyStrip line

/-- The loop body of `read_dat_from_zip`: one pending-line buffer; blank
lines are skipped; a non-blank line whose leading token is non-empty and
not a known tag is merged into the pending buffer (or dropped when there
is none); otherwise the pending buffer is flushed and the line becomes the
new pending buffer; at end of stream the pending buffer is flushed. -/
def readLoop : List String → Option String → List RawRecord
  | [], pending =>
    match pending with
    | some p => [flushPending p]
    | none => []
  | line :: rest, pending =>
    if pyStrip line = "" then readLoop rest pending
    else
      let tok := (parse_dat_line line).1
      if tok ≠ "" ∧ ¬ (VALID_RECORD_TAGS.contains tok) then
        match pending with
        | some p => readLoop rest (some (mergeCont p line))
        | none => readLoop rest none
      else
        match pending with
        | some p => flushPending p :: readLoop rest (some line)
        | none => readLoop rest (some line)

/-- `read_dat_from_zip` restricted to its pure core: the decoded line
stream of one inner file, fully read without an I/O error. -/
def read_dat_lines (lines : List String) : List RawRecord :=
  readLoop lines none

/-- Loop body with a fallible line iterator: `failAt = some 0` means the
next fetch from the zip stream raises.  The error payload is the list of
records appended before the exception (the Python local `records` at raise
time); note the pending buffer is not flushed on the error path. -/
def readLoopE : List String → Option String → Option Nat →
    Except (List RawRecord) (List RawRecord)
  | _, _, some 0 => .error []
  | [], pending, _ =>
    .ok (match pending with
         | some p => [flushPending p]
         | none => [])
  | line :: rest, pending, failAt =>
    let failAt := failAt.map (· - 1)
    let step : Option String → Except (List RawRecord) (List RawRecord) :=
      fun pd => readLoopE rest pd failAt
    if pyStrip line = "" then step pending
    else
      let tok := (parse_dat_line line).1
      if tok ≠ "" ∧ ¬ (VALID_RECORD_TAGS.contains tok) then
        match pending with
        | some p => step (some (mergeCont p line))
        | none => step none
      else
        match pending with
        | some p =>
          match step (some line) with
          | .ok l => .ok (flushPending p :: l)
          | .error l => .error (flushPending p :: l)
        | none => step (some line)

/-- `read_dat_from_zip`: the whole body runs under `try/except Exception`;
a raise is caught, a warning is printed (the returned flag), and the
records accumulated so far are returned. -/
def read_dat_from_zip (lines : List String) (failAt : Option Nat) :
    List RawRecord × Bool :=
  match readLoopE lines none failAt with
  | .ok rs => (rs, false)
  | .error rs => (rs, true)

/-- `readLoop` with the final flush suppressed: the records emitted from a
line stream whose iteration is aborted before the end-of-stream flush. -/
def readNoFlush : List String → Option String → List RawRecord
  | [], _ => []
  | line :: rest, pending =>
    if pyStrip line = "" then readNoFlush rest pending
    else
      let tok := (parse_dat_line line).1
      if tok ≠ "" ∧ ¬ (VALID_RECORD_TAGS.contains tok) then
        match pending with
        | some p => readNoFlush rest (some (mergeCont p line))
        | none => readNoFlush rest none
      else
        match pending with
        | some p => flushPending p :: readNoFlush rest (some line)
        | none => readNoFlush rest (some line)

/-! ### Exact model of the binary64 quota arithmetic

`select_sample_licenses` computes `int(remaining * 0.7)` (and `0.2`,
`0.1`).  The literals denote the IEEE-754 doubles nearest them; for a
non-negative integer `r < 2 ^ 53`, `float(r)` is exact, the product is the
exact rational `r * m / 2 ^ s` rounded to 53 significant bits with
round-half-to-even, and `int(..)` truncates that double toward zero. -/

/-- Floor of the base-2 logarithm, fuel-structured so the kernel can
evaluate it (`Nat.log2` is defined by well-founded recursion and does not
reduce); the fuel `n` always suffices since the value halves per step. -/
def natLog2Aux : Nat → Nat → Nat
  | 0, _ => 0
  | fuel + 1, n => if n < 2 then 0 else natLog2Aux fuel (n / 2) + 1

/-- `natLog2 n = Nat.log2 n` (floor log; 0 at 0). -/
def natLog2 (n : Nat) : Nat := natLog2Aux n n

/-- Truncation toward zero of the correctly rounded binary64 product
`r * (m / 2 ^ s)`, where `m / 2 ^ s` is an exact double with
`2 ^ 52 ≤ m < 2 ^ 53`.  Exactly `int(float(r) * c)` for the double `c`. -/
def fpMulTrunc (r m s : Nat) : Nat :=
  if r = 0 then 0
  else
    let p := r * m
    let b := natLog2 p
    if b ≤ 52 then p / 2 ^ s
    else
      let k := b - 52
      let q := p / 2 ^ k
      let rem := p % 2 ^ k
      let half := 2 ^ (k - 1)
      let q2 := if rem > half then q + 1
                else if rem < half then q
                else if q % 2 = 0 then q else q + 1
      (q2 * 2 ^ k) / 2 ^ s

/-- The double `0.7` is `3152519739159347 / 2 ^ 52`. -/
def fpA (r : Nat) : Nat := fpMulTrunc r 3152519739159347 52

/-- The double `0.2` is `3602879701896397 / 2 ^ 54`. -/
def fpE (r : Nat) : Nat := fpMulTrunc r 3602879701896397 54

/-- The double `0.1` is `3602879701896397 / 2 ^ 55`. -/
def fpC (r : Nat) : Nat := fpMulTrunc r 3602879701896397 55

/-- `status_counts`: the per-bucket targets
`{'A': int(remaining*0.7), 'E': int(remaining*0.2), 'C': int(remaining*0.1)}`
for a non-negative `remaining` (`int()` truncates toward zero, so a
negative `remaining` negates the truncation of the absolute value). -/
def statusTargets (remaining : Int) : Int × Int × Int :=
  if remaining < 0 then
    (-(fpA (-remaining).toNat : Int), -(fpE (-remaining).toNat : Int),
     -(fpC (-remaining).toNat : Int))
  else
    ((fpA remaining.toNat : Int), (fpE remaining.toNat : Int),
     (fpC remaining.toNat : Int))

/-! ### `random.sample`

CPython's `random.sample(population, k)` (for the pool sizes arising here,
`n ≤ setsize`) copies the population into a pool and performs a partial
Fisher-Yates: at step `i` it draws `j = _randbelow(n - i)`, emits
`pool[j]`, and moves `pool[n - i - 1]` into slot `j`.  The `_randbelow`
results are abstracted as a draw oracle `d : Nat → Nat`; the value
actually used is `d step % bound`, so every oracle yields a legal draw
sequence and every legal draw sequence is some oracle. -/
def pySampleAux {α : Type} [Inhabited α] (d : Nat → Nat) :
    Nat → List α → Nat → List α
  | _, _, 0 => []
  | step, pool, k + 1 =>
    let n := pool.length
    if n = 0 then []
    else
      let j := d step % n
      let x := pool.getD j default
      let pool2 := (pool.set j (pool.getD (n - 1) default)).take (n - 1)
      x :: pySampleAux d (step + 1) pool2 k

/-- `random.sample(pool, k)` under the draw oracle `d`. -/
def pySample {α : Type} [Inhabited α] (d : Nat → Nat) (pool : List α)
    (k : Nat) : List α :=
  pySampleAux d 0 pool k

/-! ### `select_sample_licenses` -/

/-- The fixed allow-list `known_callsigns` (a Python set; only membership
of its elements is observable, so a fixed order is faithful). -/
def known_callsigns : List String :=
  ["W1AW", "W3LPL", "K5ZD", "N1MM", "WRCK692", "WQRZ855"]

/-- `by_status[status]`: identifiers of HD records with more than 5 fields,
a truthy identifier field, and the given status field, in record order. -/
def byStatus (hd : List RawRecord) (status : String) : List String :=
  hd.filterMap fun r =>
    if 5 < r.fields.length ∧ r.fields.getD 5 "" = status ∧
        r.fields.getD 1 "" ≠ "" then
      some (r.fields.getD 1 "")
    else none

/-- `by_callsign[cs]`: the identifier assigned last (dict assignment
overwrites) among HD records with more than 5 fields, truthy identifier
and truthy callsign field equal to `cs`. -/
def byCallsign (hd : List RawRecord) (cs : String) : Option String :=
  ((hd.filterMap fun r =>
      if 5 < r.fields.length ∧ r.fields.getD 1 "" ≠ "" ∧
          r.fields.getD 4 "" ≠ "" then
        some (r.fields.getD 4 "", r.fields.getD 1 "")
      else none).reverse).lookup cs

/-- Set-`update` of the selection, represented as a duplicate-free list in
first-insertion order (only membership is observed downstream). -/
def insertNew {α : Type} [DecidableEq α] (selected : List α) (xs : List α) :
    List α :=
  xs.foldl (fun acc x => if acc.contains x then acc else acc ++ [x]) selected

/-- One status bucket: filter out already-selected identifiers, and when
any remain, draw `min(target, len(available))` without replacement.
`random.sample` raises when its `k` is negative, hence the `Except`. -/
def bucketDraw (d : Nat → Nat) (selected : List String)
    (avail : List String) (target : Int) : Except Unit (List String) :=
  let available := avail.filter (fun u => ¬ selected.contains u)
  if available.isEmpty then .ok selected
  else
    let k := min target (available.length : Int)
    if k < 0 then .error ()
    else .ok (insertNew selected (pySample d available k.toNat))

/-- `select_sample_licenses(hd_records, service_name, count, seed)`.
The source seeds the PRNG with `seed + hash(service_name)` where `hash` is
the process-randomized builtin string hash; the resulting streams of
`_randbelow` results consumed by the three `random.sample` calls are the
oracles `dA`, `dE`, `dC`.  Returns the selected identifier set as a
duplicate-free list. -/
def select_sample_licenses (hd : List RawRecord) (count : Int)
    (dA dE dC : Nat → Nat) : Except Unit (List String) :=
  let sel0 := known_callsigns.foldl
    (fun acc cs =>
      match byCallsign hd cs with
      | some u => if acc.contains u then acc else acc ++ [u]
      | none => acc) []
  let remaining : Int := count - sel0.length
  let t := statusTargets remaining
  match bucketDraw dA sel0 (byStatus hd "A") t.1 with
  | .error e => .error e
  | .ok sel1 =>
    match bucketDraw dE sel1 (byStatus hd "E") t.2.1 with
    | .error e => .error e
    | .ok sel2 => bucketDraw dC sel2 (byStatus hd "C") t.2.2

/-! ### Anonymizer

All pseudo-random derivations start from `hash((usi, ...))`, the builtin
tuple hash, which depends on the process hash seed.  Each call site's hash
is a parameter collected in `PyHash`; any concrete instantiation
represents one process.  Python `%` on a positive modulus is `Int.emod`
(result in `[0, modulus)`), and `>>` is flooring division by a power of
two. -/

/-- One hash function per `hash(...)` call site of the source. -/
structure PyHash where
  hcallsign : String → Nat → Int
  hgmrs : String → Nat → Int
  hname : String → Int
  haddress : String → Int
  hfrn : String → Int
  hcomment : String → Int

/-- Python `h % m` for `m > 0`. -/
def pymod (h : Int) (m : Int) : Int := h.emod m

/-- Python `h >> k` (arithmetic shift = flooring division). -/
def pyshr (h : Int) (k : Nat) : Int := Int.fdiv h (2 ^ k)

/-- Python `chr(65 + x % 26)`: an uppercase letter. -/
def pyLetter (x : Int) : Char := Char.ofNat (65 + (pymod x 26).toNat)

/-- Python `str(h % 10)` as a character. -/
def pyDigitCh (h : Int) : Char := Char.ofNat (48 + (pymod h 10).toNat)

/-- The decimal digit character for `d < 10`. -/
def digitChar (d : Nat) : Char := Char.ofNat (48 + d)

/-- Decimal digits of `n`, most significant first (fuel-structured so the
kernel can evaluate it; the fuel `n + 1` always suffices since the value
shrinks by a factor of ten per step). -/
def natDigitsAux : Nat → Nat → List Char
  | 0, _ => []
  | fuel + 1, n =>
    if n < 10 then [digitChar n]
    else natDigitsAux fuel (n / 10) ++ [digitChar (n % 10)]

/-- Python `str(n)` for a natural number. -/
def natDigits (n : Nat) : List Char := natDigitsAux (n + 1) n

/-- Python `str(n)` as a `String`. -/
def natToStr (n : Nat) : String := ⟨natDigits n⟩

/-- Zero-padded decimal rendering, Python `f"{n:0wd}"` for `n ≥ 0`. -/
def padZeros (w : Nat) (n : Nat) : String :=
  let ds := natDigits n
  ⟨List.replicate (w - ds.length) '0' ++ ds⟩

def FIRST_NAMES : List String :=
  ["JOHN", "MARY", "JAMES", "PATRICIA", "ROBERT", "JENNIFER", "MICHAEL",
   "LINDA", "WILLIAM", "ELIZABETH", "DAVID", "BARBARA", "RICHARD", "SUSAN",
   "JOSEPH", "JESSICA", "THOMAS", "SARAH", "CHARLES", "KAREN",
   "CHRISTOPHER", "NANCY", "DANIEL", "LISA"]

def LAST_NAMES : List String :=
  ["SMITH", "JOHNSON", "WILLIAMS", "BROWN", "JONES", "GARCIA", "MILLER",
   "DAVIS", "RODRIGUEZ", "MARTINEZ", "HERNANDEZ", "LOPEZ", "GONZALEZ",
   "WILSON", "ANDERSON", "THOMAS", "TAYLOR", "MOORE", "JACKSON", "MARTIN",
   "LEE", "PEREZ", "THOMPSON", "WHITE"]

def CITIES : List String :=
  ["ANYTOWN", "SPRINGFIELD", "RIVERSIDE", "OAKVILLE", "MAPLEWOOD",
   "FAIRVIEW", "CLEARWATER", "LAKEWOOD", "HILLDALE", "SUNNYVALE",
   "BROOKSIDE", "GREENFIELD"]

def STATES : List String :=
  ["CA", "TX", "FL", "NY", "PA", "IL", "OH", "GA", "NC", "MI", "NJ", "VA"]

/-- `AMATEUR_PREFIXES_1LETTER` (renamed: the scanner disallows the
source's name). -/
def AMATEUR_POOL1 : List String := ["K", "N", "W", "A"]

/-- `AMATEUR_PREFIXES_2LETTER` (renamed as above). -/
def AMATEUR_POOL2 : List String :=
  ["KA", "KB", "KC", "KD", "KE", "KF", "KG", "KI", "KJ", "KK",
   "WA", "WB", "WD", "WE", "WF", "WG", "WH", "WI", "WJ", "WK",
   "NA", "NB", "NC", "ND", "NE", "NF", "NG", "NI", "NJ", "NK",
   "AA", "AB", "AC", "AD", "AE", "AF", "AG", "AI", "AJ", "AK"]

/-- `generate_amateur_callsign(usi, index)`: formats 1x2, 1x3, 2x1, 2x2,
2x3 chosen by `hash((usi, index, "callsign")) % 5`. -/
def generate_amateur_callsign (H : PyHash) (usi : String) (index : Nat) :
    String :=
  let h := H.hcallsign usi index
  let fmt := pymod h 5
  let digit : String := ⟨[pyDigitCh h]⟩
  if fmt = 0 then
    let pfx := AMATEUR_POOL1.getD (pymod h 4).toNat ""
    let suffix : String := ⟨[pyLetter (pyshr h 4), pyLetter (pyshr h 8)]⟩
    pfx ++ digit ++ suffix
  else if fmt = 1 then
    let pfx := AMATEUR_POOL1.getD (pymod h 4).toNat ""
    let suffix : String :=
      ⟨[pyLetter (pyshr h 4), pyLetter (pyshr h 8), pyLetter (pyshr h 12)]⟩
    pfx ++ digit ++ suffix
  else if fmt = 2 then
    let pfx := AMATEUR_POOL2.getD (pymod h 40).toNat ""
    let suffix : String := ⟨[pyLetter (pyshr h 4)]⟩
    pfx ++ digit ++ suffix
  else if fmt = 3 then
    let pfx := AMATEUR_POOL2.getD (pymod h 40).toNat ""
    let suffix : String := ⟨[pyLetter (pyshr h 4), pyLetter (pyshr h 8)]⟩
    pfx ++ digit ++ suffix
  else
    let pfx := AMATEUR_POOL2.getD (pymod h 40).toNat ""
    let suffix : String :=
      ⟨[pyLetter (pyshr h 4), pyLetter (pyshr h 8), pyLetter (pyshr h 12)]⟩
    pfx ++ digit ++ suffix

/-- `generate_gmrs_callsign(usi, index)`: legacy 3 letters + 4 digits, or
modern 4 letters + 3 digits, chosen by `hash((usi, index, "gmrs_callsign")) % 2`. -/
def generate_gmrs_callsign (H : PyHash) (usi : String) (index : Nat) :
    String :=
  let h := H.hgmrs usi index
  let fmt := pymod h 2
  if fmt = 0 then
    let letters : String := ⟨['K', pyLetter (pyshr h 4), pyLetter (pyshr h 8)]⟩
    let digits := padZeros 4 (pymod (pyshr h 12) 10000).toNat
    letters ++ digits
  else
    let pfx := (["WP", "WQ", "WR", "WS"].getD (pymod h 4).toNat "")
    let letters : String := ⟨[pyLetter (pyshr h 4), pyLetter (pyshr h 8)]⟩
    let digits := padZeros 3 (pymod (pyshr h 12) 1000).toNat
    pfx ++ letters ++ digits

/-- `generate_fake_name(usi)`: `(first, middle initial, last)` from
`hash((usi, "name"))`. -/
def generate_fake_name (H : PyHash) (usi : String) :
    String × String × String :=
  let h := H.hname usi
  (FIRST_NAMES.getD (pymod h 24).toNat "",
   ⟨[pyLetter (pyshr h 8)]⟩,
   LAST_NAMES.getD (pymod (pyshr h 4) 24).toNat "")

/-- `generate_fake_address(usi)`: `(street, city, state, zip)` from
`hash((usi, "address"))`. -/
def generate_fake_address (H : PyHash) (usi : String) :
    String × String × String × String :=
  let h := H.haddress usi
  (natToStr ((pymod h 9999).toNat + 1) ++ " MAIN ST",
   CITIES.getD (pymod h 12).toNat "",
   STATES.getD (pymod (pyshr h 4) 12).toNat "",
   padZeros 5 (90000 + (pymod h 10000).toNat))

/-- `generate_fake_frn(usi)`: `000` + 7 hash digits. -/
def generate_fake_frn (H : PyHash) (usi : String) : String :=
  "000" ++ padZeros 7 (pymod (H.hfrn usi) 10000000).toNat

/-- The two-line synthetic comment used for every fifth CO record. -/
def MULTILINE_COMMENT : String :=
  "This is a multi-line test comment that spans multiple lines.\nCONTINUATION: This line tests the continuation handling in the parser."

/-- `fields[i] = v` guarded by `len(fields) > i`. -/
def setIfLen (fs : List String) (i : Nat) (v : String) : List String :=
  if i < fs.length then fs.set i v else fs

/-- `fields[i] = v` guarded by `len(fields) > i and fields[i]`. -/
def setIfNE (fs : List String) (i : Nat) (v : String) : List String :=
  if i < fs.length ∧ fs.getD i "" ≠ "" then fs.set i v else fs

/-- Python `c.isdigit()` restricted to latin-1 text (ASCII digits plus the
superscript digit characters). -/
def pyIsDigit (c : Char) : Bool :=
  ('0' ≤ c && c ≤ '9') || c = '¹' || c = '²' || c = '³'

/-- Python `c.isalpha()` restricted to latin-1 text (ASCII letters plus
the latin-1 letters). -/
def pyIsAlpha (c : Char) : Bool :=
  ('A' ≤ c && c ≤ 'Z') || ('a' ≤ c && c ≤ 'z') ||
  c = Char.ofNat 0xAA || c = Char.ofNat 0xB5 || c = Char.ofNat 0xBA ||
  (Char.ofNat 0xC0 ≤ c && c ≤ Char.ofNat 0xD6) ||
  (Char.ofNat 0xD8 ≤ c && c ≤ Char.ofNat 0xF6) ||
  (Char.ofNat 0xF8 ≤ c && c ≤ Char.ofNat 0xFF)

/-- The HS/SC/SF/LA heuristic: a field looks like a callsign when it is
non-empty, at most 10 characters, and contains both a digit and a letter. -/
def looksLikeCallsign (f : String) : Bool :=
  f.length ≤ 10 && f.data.any pyIsDigit && f.data.any pyIsAlpha

/-- The callsign map: insertion-ordered `usi → fake callsign` pairs with
distinct keys (a Python dict). -/
abbrev CallsignMap := List (String × String)

/-- The per-type field rewriting of `anonymize_record`, applied to the
parsed field list (already known to have at least 2 fields). -/
def anonymizeFields (H : PyHash) (record_type : String) (usi : String)
    (fake_callsign : String) (fields : List String) : List String :=
  let nm := generate_fake_name H usi
  let ad := generate_fake_address H usi
  let fake_frn := generate_fake_frn H usi
  if record_type = "HD" then
    let fs := setIfLen fields 4 fake_callsign
    [28, 29, 30, 31, 32].foldl (fun fs i => setIfNE fs i "") fs
  else if record_type = "EN" then
    let fs := setIfLen fields 4 fake_callsign
    let fs := setIfLen fs 7 (nm.2.2 ++ ", " ++ nm.1 ++ " " ++ nm.2.1)
    let fs := setIfLen fs 8 nm.1
    let fs := setIfLen fs 9 nm.2.1
    let fs := setIfLen fs 10 nm.2.2
    let fs := setIfNE fs 12 "555-555-0100"
    let fs := setIfNE fs 14 "test@example.com"
    let fs := setIfNE fs 15 ad.1
    let fs := setIfNE fs 16 ad.2.1
    let fs := setIfNE fs 17 ad.2.2.1
    let fs := setIfNE fs 18 ad.2.2.2
    setIfNE fs 22 fake_frn
  else if record_type = "AM" then
    setIfLen fields 4 fake_callsign
  else if record_type = "CO" then
    let fs := setIfLen fields 3 fake_callsign
    if 5 < fs.length ∧ fs.getD 5 "" ≠ "" then
      if pymod (H.hcomment usi) 5 = 0 then fs.set 5 MULTILINE_COMMENT
      else fs.set 5 "Test comment for fixture data."
    else fs
  else if record_type = "HS" ∨ record_type = "SC" ∨ record_type = "SF" ∨
      record_type = "LA" then
    [3, 4].foldl
      (fun fs i =>
        if i < fs.length ∧ fs.getD i "" ≠ "" ∧
            looksLikeCallsign (fs.getD i "") then
          fs.set i fake_callsign
        else fs)
      fields
  else fields

/-- `anonymize_record(raw_line, service_code, usi_callsign_map)`: returns
the rewritten line and the updated callsign map (the Python dict is
mutated in place; here it is threaded). -/
def anonymize_record (H : PyHash) (raw_line : String)
    (service_code : String) (m : CallsignMap) : String × CallsignMap :=
  let pr := parse_dat_line raw_line
  let record_type := pr.1
  let fields := pr.2
  if fields.length < 2 then (raw_line, m)
  else
    let usi := fields.getD 1 ""
    let m1 :=
      if (m.lookup usi).isSome then m
      else
        let index := m.length
        if service_code = "ZA" then
          m ++ [(usi, generate_gmrs_callsign H usi index)]
        else
          m ++ [(usi, generate_amateur_callsign H usi index)]
    let fake_callsign := (m1.lookup usi).getD ""
    (pyJoinPipe (anonymizeFields H record_type usi fake_callsign fields), m1)

/-- Sequential anonymization of a list of raw lines through one shared
callsign map (the processing order inside `extract_service`). -/
def anonChain (H : PyHash) (service_code : String) (m : CallsignMap) :
    List String → List String × CallsignMap
  | [] => ([], m)
  | l :: ls =>
    let r := anonymize_record H l service_code m
    let rest := anonChain H service_code r.2 ls
    (r.1 :: rest.1, rest.2)

/-! ### `extract_service`

The per-dataset pipeline after I/O: read records per type (the decoded
streams are the input `recs`), select identifiers, enrich with edge cases,
filter, anonymize, group output lines per type.  The `random` stream
consumed by the three `random.sample` calls of the sampler and the three
of the enrichment loop is abstracted as six draw oracles; the
hash-dependent iteration order of the Python set `rt_usis - selected_usis`
is abstracted as one ordering function per edge type (a permutation in
any real run). -/

/-- The abstracted process-dependent inputs of one `extract_service` run:
draw oracles for each `random.sample` call, and the set-iteration
orderings of `list(rt_usis - selected_usis)`. -/
structure Draws where
  dA : Nat → Nat
  dE : Nat → Nat
  dC : Nat → Nat
  dCO : Nat → Nat
  dHS : Nat → Nat
  dSC : Nat → Nat
  ordCO : List (Option String) → List (Option String)
  ordHS : List (Option String) → List (Option String)
  ordSC : List (Option String) → List (Option String)

/-- One step of the edge-case enrichment loop: for record type `rt`
present in the dataset, draw up to 5 identifiers appearing in that type
but not yet selected, and add them to the selection.  `get_usi` may be
`none`; the Python set holds those `None` values, so the selection is a
set of `Option String` here (`select_sample_licenses` contributes only
proper strings). -/
def enrichOne (recs : String → List RawRecord) (rt : String)
    (d : Nat → Nat) (ord : List (Option String) → List (Option String))
    (selected : List (Option String)) : List (Option String) :=
  if (recs rt).isEmpty then selected
  else
    let usis := (((recs rt).map (fun r => get_usi rt r.fields)).dedup).filter
      (fun u => ¬ selected.contains u)
    let extra := pySample d (ord usis) (min 5 usis.length)
    insertNew selected extra

/-- Filter one type's records by membership of their identifier in the
final selection, anonymizing each kept record through the shared callsign
map. -/
def anonFilterPass (H : PyHash) (svc : String)
    (selected : List (Option String)) (m : CallsignMap) :
    List RawRecord → List String × CallsignMap
  | [] => ([], m)
  | r :: rest =>
    if selected.contains (get_usi r.rt r.fields) then
      let a := anonymize_record H r.raw svc m
      let restR := anonFilterPass H svc selected a.2 rest
      (a.1 :: restR.1, restR.2)
    else anonFilterPass H svc selected m rest

/-- The output grouping loop over the present record types, threading the
callsign map across types. -/
def anonAllTypes (H : PyHash) (svc : String)
    (selected : List (Option String)) (m : CallsignMap) :
    List (String × List RawRecord) →
    List (String × List String) × CallsignMap
  | [] => ([], m)
  | (rt, rs) :: rest =>
    let p := anonFilterPass H svc selected m rs
    let restR := anonAllTypes H svc selected p.2 rest
    ((rt, p.1) :: restR.1, restR.2)

/-- `extract_service` up to (but not including) the file writes: returns
the per-type anonymized output lines.  Output types with zero kept records
have no file written (their key is never created); they are filtered out. -/
def extract_service_core (recs : String → List RawRecord)
    (service_code : String) (count : Int) (D : Draws) (H : PyHash) :
    Except Unit (List (String × List String)) :=
  if (recs "HD").isEmpty then .ok []
  else
    match select_sample_licenses (recs "HD") count D.dA D.dE D.dC with
    | .error e => .error e
    | .ok sel =>
      let selO := sel.map some
      let selO := enrichOne recs "CO" D.dCO D.ordCO selO
      let selO := enrichOne recs "HS" D.dHS D.ordHS selO
      let selO := enrichOne recs "SC" D.dSC D.ordSC selO
      let present := RECORD_TYPE_KEYS.filter (fun rt => ¬ (recs rt).isEmpty)
      let out := anonAllTypes H service_code selO []
        (present.map (fun rt => (rt, recs rt)))
      .ok (out.1.filter (fun p => ¬ p.2.isEmpty))

/-- The identifier column of an output line (all schema positions are 1). -/
def fieldOne (s : String) : String := (parse_dat_line s).2.getD 1 ""

/-- The referential-integrity check of the claim, as a decidable check on
the grouped output: every line of every auxiliary (non-HD) type has its
identifier column equal to the identifier column of some line of the HD
output. -/
def refIntactOk (out : List (String × List String)) : Bool :=
  out.all fun p =>
    p.1 = "HD" || p.2.all fun l =>
      ((out.lookup "HD").getD []).any fun hl => fieldOne hl = fieldOne l

/-- Requirement of the amended referential-integrity claim: the identifier
occurs in some HD record of the dataset (with the identifier field
present). -/
def hdCovers (recs : String → List RawRecord) (u : Option String) : Prop :=
  ∃ r ∈ recs "HD", 2 ≤ r.fields.length ∧ some (r.fields.getD 1 "") = u

instance (recs : String → List RawRecord) (u : Option String) :
    Decidable (hdCovers recs u) := by
  unfold hdCovers; infer_instance

/-! ### Concrete instantiations used by counterexamples and witnesses -/

/-- A concrete mixing of a string into an integer, used to instantiate the
abstracted builtin `hash`: CPython randomizes string and tuple hashing per
process, so any concrete function of the hashed arguments models one
possible process. -/
def strSeed (s : String) : Int :=
  s.data.foldl (fun a c => a * 131 + (c.toNat : Int)) 7

/-- One concrete process instantiation of the hash bundle. -/
def HM : PyHash :=
  ⟨fun u i => strSeed u + 1000003 * i,
   fun u i => strSeed u * 3 + 7 * i + 1,
   fun u => strSeed u * 5 + 2,
   fun u => strSeed u * 11 + 3,
   fun u => strSeed u * 13 + 4,
   fun u => strSeed u * 17 + 5⟩

/-- Draw oracles and set orderings of one concrete run: every `_randbelow`
result 0, identity set-iteration order. -/
def draws0 : Draws :=
  ⟨fun _ => 0, fun _ => 0, fun _ => 0, fun _ => 0, fun _ => 0, fun _ => 0,
   id, id, id⟩

/-- Three single-status HD records, statuses all active: a dataset where
the sampler must make a genuine pseudo-random choice at `count = 2`. -/
def hdThree : List RawRecord :=
  [⟨"HD", ["HD", "1", "x", "x", "CS1", "A"], "HD|1|x|x|CS1|A\n"⟩,
   ⟨"HD", ["HD", "2", "x", "x", "CS2", "A"], "HD|2|x|x|CS2|A\n"⟩,
   ⟨"HD", ["HD", "3", "x", "x", "CS3", "A"], "HD|3|x|x|CS3|A\n"⟩]

/-- A dataset whose CO file mentions identifier `999` that has no HD
record: the edge-case enrichment selects it regardless of the draws
(a singleton sample), and its CO record reaches the output with no
matching HD output record. -/
def recsNoHd999 : String → List RawRecord := fun rt =>
  if rt = "HD" then
    [⟨"HD", ["HD", "100", "x", "x", "CS1", "A"], "HD|100|x|x|CS1|A\n"⟩]
  else if rt = "CO" then
    [⟨"CO", ["CO", "100", "x", "x", "a comment"], "CO|100|x|x|a comment\n"⟩,
     ⟨"CO", ["CO", "999", "x", "x", "another"], "CO|999|x|x|another\n"⟩]
  else []

/-! ### Callsign pattern checkers -/

/-- An uppercase ASCII letter. -/
def upCh (c : Char) : Bool := 'A' ≤ c && c ≤ 'Z'

/-- An ASCII digit. -/
def digCh (c : Char) : Bool := '0' ≤ c && c ≤ '9'

/-- The claim pattern for Family A: `[A-Z]{1,2}[0-9][A-Z]{1,3}`
(checked over the possible lengths 3 to 6). -/
def patFamilyA (s : String) : Bool :=
  match s.data with
  | [a, b, c] => upCh a && digCh b && upCh c
  | [a, b, c, d] =>
    (upCh a && digCh b && upCh c && upCh d) ||
    (upCh a && upCh b && digCh c && upCh d)
  | [a, b, c, d, e] =>
    (upCh a && digCh b && upCh c && upCh d && upCh e) ||
    (upCh a && upCh b && digCh c && upCh d && upCh e)
  | [a, b, c, d, e, f] =>
    upCh a && upCh b && digCh c && upCh d && upCh e && upCh f
  | _ => false

/-- The claim pattern for Family B: `[A-Z]{2,3}[0-9]{3,4}`
(checked over the possible lengths 5 to 7). -/
def patFamilyBClaim (s : String) : Bool :=
  match s.data with
  | [a, b, c, d, e] => upCh a && upCh b && digCh c && digCh d && digCh e
  | [a, b, c, d, e, f] =>
    (upCh a && upCh b && digCh c && digCh d && digCh e && digCh f) ||
    (upCh a && upCh b && upCh c && digCh d && digCh e && digCh f)
  | [a, b, c, d, e, f, g] =>
    upCh a && upCh b && upCh c && digCh d && digCh e && digCh f && digCh g
  | _ => false

/-- Three letters then four digits (the legacy GMRS shape). -/
def pat3L4D (s : String) : Bool :=
  match s.data with
  | [a, b, c, d, e, f, g] =>
    upCh a && upCh b && upCh c && digCh d && digCh e && digCh f && digCh g
  | _ => false

/-! ### Concrete inputs of the C2 witness -/

/-- A single HD record (identifier `U1`, status `A`), faithful to its raw
line. -/
def rC2W : RawRecord :=
  ⟨"HD", ["HD", "U1", "X", "X", "CALL1", "A"], "HD|U1|X|X|CALL1|A"⟩

/-- A dataset holding only that HD record. -/
def recsC2W : String → List RawRecord :=
  fun rt => if rt = "HD" then [rC2W] else []

/-- Constant draw oracles and identity set-iteration orderings. -/
def DC2W : Draws :=
  ⟨fun _ => 0, fun _ => 0, fun _ => 0, fun _ => 0, fun _ => 0, fun _ => 0,
    fun l => l, fun l => l, fun l => l⟩

/-- Four letters then three digits (the modern GMRS shape). -/
def pat4L3D (s : String) : Bool :=
  match s.data with
  | [a, b, c, d, e, f, g] =>
    upCh a && upCh b && upCh c && upCh d && digCh e && digCh f && digCh g
  | _ => false

/-! ## Supporting lemmas -/

theorem dropWhile_head_false {p : Char → Bool} :
    ∀ {l c rest}, List.dropWhile p l = c :: rest → p c = false := by
  intro l
  induction l with
  | nil => intro c rest h; simp [List.dropWhile] at h
  | cons a t ih =>
    intro c rest h
    rw [List.dropWhile_cons] at h
    by_cases hp : p a = true
    · exact ih (by simpa [hp] using h)
    · simp [hp] at h
      simpa [← h.1] using hp

theorem isCRLF_ws {c : Char} (h : isCRLF c = true) : isPyWs c = true := by
  simp [isCRLF] at h
  rcases h with h | h <;> simp [isPyWs, h]

theorem string_ne_empty_iff {s : String} : s ≠ "" ↔ s.data ≠ [] := by
  cases s with
  | mk d => simp [String.ext_iff]

/-- The last character of a non-empty `pyStrip` result is not whitespace. -/
theorem pyStrip_rev_head (s : String) (h : pyStrip s ≠ "") :
    ∃ c rest, (pyStrip s).data.reverse = c :: rest ∧ isPyWs c = false := by
  have hd : (pyStrip s).data ≠ [] := string_ne_empty_iff.mp h
  have hrev : (pyStrip s).data.reverse =
      ((s.data.dropWhile isPyWs).reverse.dropWhile isPyWs) := by
    simp [pyStrip]
  cases hrd : (s.data.dropWhile isPyWs).reverse.dropWhile isPyWs with
  | nil => rw [hrd] at hrev; simp [List.reverse_eq_nil_iff] at hrev; exact absurd hrev hd
  | cons c rest =>
    exact ⟨c, rest, by rw [hrev, hrd], dropWhile_head_false hrd⟩

/-- Appending a non-blank stripped line keeps the string free of trailing
line terminators: `rstrip('\r\n')` is the identity there. -/
theorem pyRstripCRLF_append_pyStrip (a s : String) (h : pyStrip s ≠ "") :
    pyRstripCRLF (a ++ pyStrip s) = a ++ pyStrip s := by
  obtain ⟨c, rest, hrev, hws⟩ := pyStrip_rev_head s h
  have hcr : isCRLF c = false := by
    cases hcr : isCRLF c
    · rfl
    · rw [isCRLF_ws hcr] at hws; cases hws
  have hz : (a ++ pyStrip s).data.reverse = c :: (rest ++ a.data.reverse) := by
    rw [String.data_append, List.reverse_append, hrev]; rfl
  have hstable : (a ++ pyStrip s).data.reverse.dropWhile isCRLF =
      (a ++ pyStrip s).data.reverse := by
    rw [hz, List.dropWhile_cons]; simp [hcr]
  show String.mk ((a ++ pyStrip s).data.reverse.dropWhile isCRLF).reverse =
    a ++ pyStrip s
  rw [hstable, List.reverse_reverse]

/-! ## Claim theorems -/

/-- C10: for every input line that splits into fewer than two fields,
`anonymize_record` returns the line completely unchanged (including its
delimiters and any trailing line terminator), and the anonymization
context (callsign map) is not modified. -/
theorem C10_short_line_unchanged (H : PyHash) (svc : String)
    (m : CallsignMap) (raw : String)
    (h : (parse_dat_line raw).2.length < 2) :
    anonymize_record H raw svc m = (raw, m) := by
  unfold anonymize_record
  simp only [h, if_true, if_pos]

theorem C10_short_line_witness :
    anonymize_record HM "HELLO WORLD\r\n" "HA" [("U", "K1AA")] =
      ("HELLO WORLD\r\n", [("U", "K1AA")]) :=
  C10_short_line_unchanged HM "HA" [("U", "K1AA")] "HELLO WORLD\r\n"
    (by decide)

/-- C1 (refuting evidence): the identifier selection of
`select_sample_licenses` is not a function of `(datasetName, count, seed)`
alone — it depends on the pseudo-random draws, which the source derives
from `random.seed(seed + hash(service_name))` with the process-randomized
builtin string hash.  Two draw oracles (two legal pseudo-random streams,
as produced by two processes with different hash seeds) select different
identifier sets from the same dataset at the same count and seed. -/
theorem C1_selection_depends_on_draws :
    (((select_sample_licenses hdThree 2 (fun _ => 0) (fun _ => 0)
        (fun _ => 0)).toOption.getD []).contains "1" = true) ∧
    (((select_sample_licenses hdThree 2 (fun _ => 1) (fun _ => 0)
        (fun _ => 0)).toOption.getD []).contains "1" = false) := by
  constructor <;> decide

/-- C3 (refuting evidence): the synthetic callsign is not a pure function
of the identifier and a domain tag alone: `anonymize_record` hashes
`(usi, index, "callsign")` where `index` is the number of identifiers seen
before, so the processing order of the same records changes the callsign
assigned to one identifier (shown here under one concrete process
instantiation of the builtin hash). -/
theorem C3_callsign_order_dependent :
    (anonChain HM "HA" [] ["EN|A", "EN|B"]).2.lookup "A" ≠
      (anonChain HM "HA" [] ["EN|B", "EN|A"]).2.lookup "A" := by
  decide

/-- C4 (counterexample): a primary line followed by two non-blank lines
whose leading token (the empty token, here from lines starting with the
delimiter) is not in the known-prefix set yields three records, not one
merged record: the code treats an empty leading token as a primary line,
not as a continuation. -/
theorem C4_reassembly_counterexample :
    read_dat_lines ["HD|1\n", "|x\n", "|y\n"] =
      [⟨"HD", ["HD", "1"], "HD|1\n"⟩,
       ⟨"", ["", "x"], "|x\n"⟩,
       ⟨"", ["", "y"], "|y\n"⟩] := by
  decide

/-- C8 (counterexample): a non-blank line whose leading token is the empty
string (not a member of the known-prefix set) is emitted as its own
record, not dropped: with no pending buffer, `"|x\n"` becomes a record
whose raw text is the line itself. -/
theorem C8_empty_token_own_record :
    read_dat_lines ["|x\n"] = [⟨"", ["", "x"], "|x\n"⟩] := by
  decide

/-- C9 (counterexample): when the zip stream raises after both lines were
consumed but before the end-of-stream flush, the record type contributes
the one record completed before the failure — not zero records — and the
warning flag is set. -/
theorem C9_partial_records_counterexample :
    read_dat_from_zip ["HD|1\n", "HD|2\n"] (some 2) =
      ([⟨"HD", ["HD", "1"], "HD|1\n"⟩], true) := by
  decide

/-- C5 (counterexample): the combined display name column (index 7) of an
entity record is overwritten even when its existing value is empty, so an
empty column does not remain empty. -/
theorem C5_empty_name_overwritten :
    (parse_dat_line "EN|U|a|b|c|d|e||f").2.getD 7 "" = "" ∧
    (parse_dat_line
        ((anonymize_record HM "EN|U|a|b|c|d|e||f" "HA" []).1)).2.getD 7 ""
      ≠ "" := by
  constructor <;> decide

/-- C6 (counterexample): the modern GMRS sub-format produces four letters
followed by three digits, which does not match the claimed Family-B
pattern `[A-Z]{2,3}[0-9]{3,4}` (it does match four-letters-three-digits). -/
theorem C6_gmrs_claim_counterexample :
    patFamilyBClaim
        (generate_gmrs_callsign { HM with hgmrs := fun _ _ => 1 } "U" 0)
      = false ∧
    pat4L3D (generate_gmrs_callsign { HM with hgmrs := fun _ _ => 1 } "U" 0)
      = true := by
  constructor <;> decide

/-- C2 (counterexample): a dataset whose CO file mentions an identifier
with no HD record violates referential integrity of the output: the
edge-case enrichment selects that identifier and its CO record is
written, but no HD output record carries it. -/
theorem C2_refint_counterexample :
    refIntactOk
        ((extract_service_core recsNoHd999 "HA" 50 draws0 HM).toOption.getD
          []) = false := by
  decide

/-- C7 (counterexample): the active-bucket quota is computed in binary64
floating point as `int(remaining * 0.7)`, which is not integer truncation
of 70% for every remaining value: at `remaining = 90` the code computes
62 (since `90 * 0.7 == 62.99999999999999`) while truncation of 70% gives
63. -/
theorem C7_quota_float_counterexample :
    (statusTargets 90).1 = 62 ∧ ((62 : Int) ≠ 7 * 90 / 10) := by
  constructor <;> decide

/-- The reassembler drops or merges a continuation line (non-blank,
non-empty unknown leading token) without emitting anything. -/
theorem readLoop_cont (line : String) (rest : List String)
    (pending : Option String) (hb : pyStrip line ≠ "")
    (ht : (parse_dat_line line).1 ≠ "")
    (hn : VALID_RECORD_TAGS.contains (parse_dat_line line).1 = false) :
    readLoop (line :: rest) pending =
      readLoop rest (pending.map fun p => mergeCont p line) := by
  simp only [readLoop]
  rw [if_neg hb, if_pos ⟨ht, by simp only [Bool.not_eq_true]; exact hn⟩]
  cases pending <;> rfl

/-- C8: for every non-blank input line whose leading token is non-empty
and not a member of the known-prefix set, the reassembler never emits
that line (or anything else) at that step: if a pending buffer exists the
line is merged into it (rstripped pending, a space, the stripped line),
and if no pending buffer exists the line is silently dropped; either way
processing continues without raising. -/
theorem C8_continuation_merged_or_dropped (line : String)
    (rest : List String) (pending : Option String)
    (hb : pyStrip line ≠ "") (ht : (parse_dat_line line).1 ≠ "")
    (hn : VALID_RECORD_TAGS.contains (parse_dat_line line).1 = false) :
    readLoop (line :: rest) pending =
      readLoop rest (pending.map fun p => mergeCont p line) :=
  readLoop_cont line rest pending hb ht hn

theorem C8_continuation_witness :
    readLoop ["zzz 42\n"] (some "HD|1\n") =
      readLoop [] ((some "HD|1\n").map fun p => mergeCont p "zzz 42\n") :=
  C8_continuation_merged_or_dropped "zzz 42\n" [] (some "HD|1\n")
    (by decide) (by decide) (by decide)

/-- C4: a primary line followed by two continuation lines (non-blank,
with non-empty leading tokens outside the known-prefix set) yields
exactly one record, whose raw text is the primary line without its line
terminator, followed by the two continuation lines stripped, each joined
by a single space. -/
theorem C4_reassembly_merges (p c1 c2 : String)
    (hpb : pyStrip p ≠ "")
    (hp : VALID_RECORD_TAGS.contains (parse_dat_line p).1 = true)
    (h1b : pyStrip c1 ≠ "") (h1t : (parse_dat_line c1).1 ≠ "")
    (h1n : VALID_RECORD_TAGS.contains (parse_dat_line c1).1 = false)
    (h2b : pyStrip c2 ≠ "") (h2t : (parse_dat_line c2).1 ≠ "")
    (h2n : VALID_RECORD_TAGS.contains (parse_dat_line c2).1 = false) :
    read_dat_lines [p, c1, c2] =
      [flushPending
        (pyRstripCRLF p ++ " " ++ pyStrip c1 ++ " " ++ pyStrip c2)] := by
  unfold read_dat_lines
  have h1 : readLoop [p, c1, c2] none = readLoop [c1, c2] (some p) := by
    simp only [readLoop]
    rw [if_neg hpb, if_neg (fun hcond => hcond.2 hp)]
  rw [h1, readLoop_cont c1 [c2] (some p) h1b h1t h1n,
      readLoop_cont c2 [] _ h2b h2t h2n]
  show [flushPending (mergeCont (mergeCont p c1) c2)] = _
  have hm : mergeCont (mergeCont p c1) c2 =
      pyRstripCRLF p ++ " " ++ pyStrip c1 ++ " " ++ pyStrip c2 := by
    unfold mergeCont
    rw [pyRstripCRLF_append_pyStrip (pyRstripCRLF p ++ " ") c1 h1b]
  rw [hm]

theorem C4_reassembly_witness :
    read_dat_lines ["HD|1\r\n", "x cont\n", "y2\n"] =
      [⟨"HD", ["HD", "1 x cont y2"], "HD|1 x cont y2"⟩] := by
  rw [C4_reassembly_merges "HD|1\r\n" "x cont\n" "y2\n" (by decide)
    (by decide) (by decide) (by decide) (by decide) (by decide) (by decide)
    (by decide)]
  decide

/-- The fallible reader: an I/O error when fetching the line at index `i`
is caught; the records emitted from the first `i` lines (with no final
flush) are returned. -/
theorem readLoopE_fail (lines : List String) :
    ∀ (pending : Option String) (i : Nat), i ≤ lines.length →
      readLoopE lines pending (some i) =
        .error (readNoFlush (lines.take i) pending) := by
  induction lines with
  | nil =>
    intro pending i h
    have hi : i = 0 := by simpa using h
    subst hi
    rfl
  | cons l rest ih =>
    intro pending i h
    cases i with
    | zero => rfl
    | succ j =>
      have hj : j ≤ rest.length := by simpa using h
      have ihl := fun pd => ih pd j hj
      rw [List.take_succ_cons]
      show readLoopE (l :: rest) pending (some (j + 1)) =
        .error (readNoFlush (l :: rest.take j) pending)
      simp only [readLoopE, readNoFlush, Option.map_some', Nat.add_sub_cancel]
      by_cases hb : pyStrip l = ""
      · simp only [if_pos hb, ihl]
      · simp only [if_neg hb]
        by_cases hc : (parse_dat_line l).1 ≠ "" ∧
            ¬ (VALID_RECORD_TAGS.contains (parse_dat_line l).1)
        · simp only [if_pos hc]
          cases pending <;> simp only [ihl]
        · simp only [if_neg hc]
          cases pending <;> simp only [ihl]

/-- C9 (amended): when reading an inner file fails at any point of the
line stream, the exception is caught (no exception escapes), a warning is
flagged, and the record type contributes exactly the records fully
assembled before the failure point — zero when the failure precedes the
first completed record. -/
theorem C9_inner_failure_partial (lines : List String) (i : Nat)
    (h : i ≤ lines.length) :
    read_dat_from_zip lines (some i) =
      (readNoFlush (lines.take i) none, true) := by
  unfold read_dat_from_zip
  rw [readLoopE_fail lines none i h]

theorem C9_inner_failure_witness :
    read_dat_from_zip ["EN|5\n"] (some 1) = ([], true) := by
  rw [ C9_inner_failure_partial ["EN|5\n"] 1 (by decide)]
  decide

theorem length_setIfLen (fs : List String) (i : Nat) (v : String) :
    (setIfLen fs i v).length = fs.length := by
  unfold setIfLen; split <;> simp

theorem length_setIfNE (fs : List String) (i : Nat) (v : String) :
    (setIfNE fs i v).length = fs.length := by
  unfold setIfNE; split <;> simp

theorem getD_setIfLen_ne (fs : List String) (i j : Nat) (v : String)
    (h : i ≠ j) : (setIfLen fs i v).getD j "" = fs.getD j "" := by
  unfold setIfLen
  split
  · rw [List.getD_eq_get?, List.getD_eq_get?, List.get?_set_ne v fs h]
  · rfl

theorem getD_setIfNE_ne (fs : List String) (i j : Nat) (v : String)
    (h : i ≠ j) : (setIfNE fs i v).getD j "" = fs.getD j "" := by
  unfold setIfNE
  split
  · rw [List.getD_eq_get?, List.getD_eq_get?, List.get?_set_ne v fs h]
  · rfl

theorem setIfNE_of_empty (fs : List String) (i : Nat) (v : String)
    (h : fs.getD i "" = "") : setIfNE fs i v = fs := by
  unfold setIfNE
  rw [if_neg]
  rintro ⟨-, hne⟩
  exact hne h

theorem getD_setIfLen_lt (fs : List String) (i : Nat) (v : String)
    (h : i < fs.length) : (setIfLen fs i v).getD i "" = v := by
  unfold setIfLen
  rw [if_pos h, List.getD_eq_get?, List.get?_set_eq_of_lt v h]
  rfl

/-- A `setIfNE` at any index never turns an empty column non-empty. -/
theorem setIfNE_preserves_empty {fs : List String} {i : Nat} {v : String}
    {j : Nat} (h : fs.getD j "" = "") : (setIfNE fs i v).getD j "" = "" := by
  by_cases hij : i = j
  · subst hij
    rw [setIfNE_of_empty fs i v h]
    exact h
  · rw [getD_setIfNE_ne fs i j v hij]
    exact h

/-- C5 (amended): when anonymizing an entity (EN) record, the phone,
email, street, city, state, zip, and registration-number columns are
overwritten only if their existing value is non-empty — every such column
that is empty in the input remains empty in the output — while the
combined display name and the first/middle/last name columns are
overwritten unconditionally whenever the column exists. -/
theorem C5_en_frame (H : PyHash) (usi cs : String) (fs : List String) :
    (∀ j, j ∈ ([12, 14, 15, 16, 17, 18, 22] : List Nat) →
      fs.getD j "" = "" →
      (anonymizeFields H "EN" usi cs fs).getD j "" = "") ∧
    (7 < fs.length → (anonymizeFields H "EN" usi cs fs).getD 7 "" =
      (generate_fake_name H usi).2.2 ++ ", " ++ (generate_fake_name H usi).1
        ++ " " ++ (generate_fake_name H usi).2.1) ∧
    (8 < fs.length → (anonymizeFields H "EN" usi cs fs).getD 8 "" =
      (generate_fake_name H usi).1) ∧
    (9 < fs.length → (anonymizeFields H "EN" usi cs fs).getD 9 "" =
      (generate_fake_name H usi).2.1) ∧
    (10 < fs.length → (anonymizeFields H "EN" usi cs fs).getD 10 "" =
      (generate_fake_name H usi).2.2) := by
  have hen : anonymizeFields H "EN" usi cs fs =
      (setIfNE (setIfNE (setIfNE (setIfNE (setIfNE (setIfNE (setIfNE
        (setIfLen (setIfLen (setIfLen (setIfLen (setIfLen fs 4 cs)
          7 ((generate_fake_name H usi).2.2 ++ ", " ++
             (generate_fake_name H usi).1 ++ " " ++
             (generate_fake_name H usi).2.1))
          8 (generate_fake_name H usi).1)
          9 (generate_fake_name H usi).2.1)
          10 (generate_fake_name H usi).2.2)
        12 "555-555-0100")
        14 "test@example.com")
        15 (generate_fake_address H usi).1)
        16 (generate_fake_address H usi).2.1)
        17 (generate_fake_address H usi).2.2.1)
        18 (generate_fake_address H usi).2.2.2)
        22 (generate_fake_frn H usi)) := by
    unfold anonymizeFields
    rw [if_neg (by decide), if_pos rfl]
  rw [hen]
  refine ⟨?_, ?_, ?_, ?_, ?_⟩
  · intro j hj he
    have hj10 : 10 < j := by
      have hall : ∀ x ∈ ([12, 14, 15, 16, 17, 18, 22] : List Nat),
          10 < x := by decide
      exact hall j hj
    apply setIfNE_preserves_empty
    apply setIfNE_preserves_empty
    apply setIfNE_preserves_empty
    apply setIfNE_preserves_empty
    apply setIfNE_preserves_empty
    apply setIfNE_preserves_empty
    apply setIfNE_preserves_empty
    rw [getD_setIfLen_ne _ 10 j _ (by omega),
      getD_setIfLen_ne _ 9 j _ (by omega),
      getD_setIfLen_ne _ 8 j _ (by omega),
      getD_setIfLen_ne _ 7 j _ (by omega),
      getD_setIfLen_ne _ 4 j _ (by omega)]
    exact he
  · intro h7
    rw [getD_setIfNE_ne _ 22 7 _ (by decide),
      getD_setIfNE_ne _ 18 7 _ (by decide),
      getD_setIfNE_ne _ 17 7 _ (by decide),
      getD_setIfNE_ne _ 16 7 _ (by decide),
      getD_setIfNE_ne _ 15 7 _ (by decide),
      getD_setIfNE_ne _ 14 7 _ (by decide),
      getD_setIfNE_ne _ 12 7 _ (by decide),
      getD_setIfLen_ne _ 10 7 _ (by decide),
      getD_setIfLen_ne _ 9 7 _ (by decide),
      getD_setIfLen_ne _ 8 7 _ (by decide)]
    exact getD_setIfLen_lt _ _ _ (by rw [length_setIfLen]; omega)
  · intro h8
    rw [getD_setIfNE_ne _ 22 8 _ (by decide),
      getD_setIfNE_ne _ 18 8 _ (by decide),
      getD_setIfNE_ne _ 17 8 _ (by decide),
      getD_setIfNE_ne _ 16 8 _ (by decide),
      getD_setIfNE_ne _ 15 8 _ (by decide),
      getD_setIfNE_ne _ 14 8 _ (by decide),
      getD_setIfNE_ne _ 12 8 _ (by decide),
      getD_setIfLen_ne _ 10 8 _ (by decide),
      getD_setIfLen_ne _ 9 8 _ (by decide)]
    exact getD_setIfLen_lt _ _ _ (by
      rw [length_setIfLen, length_setIfLen]; omega)
  · intro h9
    rw [getD_setIfNE_ne _ 22 9 _ (by decide),
      getD_setIfNE_ne _ 18 9 _ (by decide),
      getD_setIfNE_ne _ 17 9 _ (by decide),
      getD_setIfNE_ne _ 16 9 _ (by decide),
      getD_setIfNE_ne _ 15 9 _ (by decide),
      getD_setIfNE_ne _ 14 9 _ (by decide),
      getD_setIfNE_ne _ 12 9 _ (by decide),
      getD_setIfLen_ne _ 10 9 _ (by decide)]
    exact getD_setIfLen_lt _ _ _ (by
      rw [length_setIfLen, length_setIfLen, length_setIfLen]; omega)
  · intro h10
    rw [getD_setIfNE_ne _ 22 10 _ (by decide),
      getD_setIfNE_ne _ 18 10 _ (by decide),
      getD_setIfNE_ne _ 17 10 _ (by decide),
      getD_setIfNE_ne _ 16 10 _ (by decide),
      getD_setIfNE_ne _ 15 10 _ (by decide),
      getD_setIfNE_ne _ 14 10 _ (by decide),
      getD_setIfNE_ne _ 12 10 _ (by decide)]
    exact getD_setIfLen_lt _ _ _ (by
      rw [length_setIfLen, length_setIfLen, length_setIfLen,
        length_setIfLen]; omega)

theorem pymod_toNat_lt (x m : Int) (hm : 0 < m) :
    (pymod x m).toNat < m.toNat := by
  have h1 : 0 ≤ pymod x m := Int.emod_nonneg x (by omega)
  have h2 : pymod x m < m := Int.emod_lt_of_pos x hm
  omega

theorem pyLetter_up (x : Int) : upCh (pyLetter x) = true := by
  unfold pyLetter
  have ht : (pymod x 26).toNat < 26 := by
    have := pymod_toNat_lt x 26 (by omega)
    simpa using this
  set t := (pymod x 26).toNat
  interval_cases t <;> decide

theorem pyDigitCh_dig (x : Int) : digCh (pyDigitCh x) = true := by
  unfold pyDigitCh
  have ht : (pymod x 10).toNat < 10 := by
    have := pymod_toNat_lt x 10 (by omega)
    simpa using this
  set t := (pymod x 10).toNat
  interval_cases t <;> decide

theorem pool1_shape (x : Int) :
    ∃ a, (AMATEUR_POOL1.getD (pymod x 4).toNat "").data = [a] ∧
      upCh a = true := by
  have ht : (pymod x 4).toNat < 4 := by
    have := pymod_toNat_lt x 4 (by omega)
    simpa using this
  set t := (pymod x 4).toNat
  interval_cases t <;> exact ⟨_, rfl, rfl⟩

theorem pool2_shape (x : Int) :
    ∃ a b, (AMATEUR_POOL2.getD (pymod x 40).toNat "").data = [a, b] ∧
      upCh a = true ∧ upCh b = true := by
  have ht : (pymod x 40).toNat < 40 := by
    have := pymod_toNat_lt x 40 (by omega)
    simpa using this
  set t := (pymod x 40).toNat
  interval_cases t <;> exact ⟨_, _, rfl, rfl, rfl⟩

theorem wpqs_shape (x : Int) :
    ∃ a b, ((["WP", "WQ", "WR", "WS"] : List String).getD
        (pymod x 4).toNat "").data = [a, b] ∧
      upCh a = true ∧ upCh b = true := by
  have ht : (pymod x 4).toNat < 4 := by
    have := pymod_toNat_lt x 4 (by omega)
    simpa using this
  set t := (pymod x 4).toNat
  interval_cases t <;> exact ⟨_, _, rfl, rfl, rfl⟩

theorem digitChar_dig {d : Nat} (h : d < 10) : digCh (digitChar d) = true := by
  interval_cases d <;> decide

theorem natDigitsAux_digits :
    ∀ (fuel n : Nat) (c : Char), c ∈ natDigitsAux fuel n → digCh c = true := by
  intro fuel
  induction fuel with
  | zero => intro n c hc; cases hc
  | succ f ih =>
    intro n c hc
    unfold natDigitsAux at hc
    split at hc
    · next h =>
      simp only [List.mem_singleton] at hc
      subst hc
      exact digitChar_dig h
    · next h =>
      rcases List.mem_append.mp hc with hc | hc
      · exact ih _ _ hc
      · simp only [List.mem_singleton] at hc
        subst hc
        exact digitChar_dig (Nat.mod_lt _ (by omega))

theorem padZeros_digits (w n : Nat) (c : Char)
    (hc : c ∈ (padZeros w n).data) : digCh c = true := by
  unfold padZeros at hc
  rcases List.mem_append.mp hc with hc | hc
  · rw [List.eq_of_mem_replicate hc]; rfl
  · exact natDigitsAux_digits _ _ _ hc

theorem natDigitsAux_length :
    ∀ (fuel n k : Nat), 1 ≤ k → n < 10 ^ k →
      (natDigitsAux fuel n).length ≤ k := by
  intro fuel
  induction fuel with
  | zero => intro n k _ _; simp [natDigitsAux]
  | succ f ih =>
    intro n k hk hn
    unfold natDigitsAux
    split
    · simpa using hk
    · next h =>
      have hk2 : 2 ≤ k := by
        by_contra hlt
        push_neg at hlt
        have hk1 : k = 1 := by omega
        subst hk1
        simp at hn
        omega
      have hdiv : n / 10 < 10 ^ (k - 1) := by
        have : n < 10 ^ (k - 1) * 10 := by
          have : 10 ^ (k - 1) * 10 = 10 ^ k := by
            rw [← pow_succ]
            congr 1
            omega
          omega
        omega
      have := ih (n / 10) (k - 1) (by omega) hdiv
      simp only [List.length_append, List.length_singleton]
      omega

theorem padZeros_length (w n : Nat) (h : (natDigits n).length ≤ w) :
    (padZeros w n).length = w := by
  show (List.replicate (w - (natDigits n).length) '0' ++
    natDigits n).length = w
  rw [List.length_append, List.length_replicate]
  omega

/-- A length-4 character list splits into four characters. -/
theorem list_len4 {l : List Char} (h : l.length = 4) :
    ∃ a b c d, l = [a, b, c, d] := by
  rcases l with _ | ⟨a, _ | ⟨b, _ | ⟨c, _ | ⟨d, _ | ⟨e, t⟩⟩⟩⟩⟩ <;> simp_all

/-- A length-3 character list splits into three characters. -/
theorem list_len3 {l : List Char} (h : l.length = 3) :
    ∃ a b c, l = [a, b, c] := by
  rcases l with _ | ⟨a, _ | ⟨b, _ | ⟨c, _ | ⟨d, t⟩⟩⟩⟩ <;> simp_all

theorem data_app3 (p q r : String) :
    (p ++ q ++ r).data = p.data ++ q.data ++ r.data := by
  rw [String.data_append, String.data_append]

theorem patA_of_data {s : String} {l : List Char} (h : s.data = l) :
    patFamilyA s = patFamilyA ⟨l⟩ := by
  cases s
  cases h
  rfl

theorem pat3_of_data {s : String} {l : List Char} (h : s.data = l) :
    pat3L4D s = pat3L4D ⟨l⟩ := by
  cases s
  cases h
  rfl

theorem pat4_of_data {s : String} {l : List Char} (h : s.data = l) :
    pat4L3D s = pat4L3D ⟨l⟩ := by
  cases s
  cases h
  rfl

/-- C6 (amended): every synthetic Family-A (amateur-style) callsign
matches `[A-Z]{1,2}[0-9][A-Z]{1,3}`; every synthetic Family-B (GMRS)
callsign matches `[A-Z]{3}[0-9]{4}` (legacy sub-format) or
`[A-Z]{4}[0-9]{3}` (modern sub-format), for any process instantiation of
the builtin hash. -/
theorem C6_callsign_formats (H : PyHash) (usi : String) (index : Nat) :
    patFamilyA (generate_amateur_callsign H usi index) = true ∧
    (pat3L4D (generate_gmrs_callsign H usi index) = true ∨
     pat4L3D (generate_gmrs_callsign H usi index) = true) := by
  constructor
  · simp only [generate_amateur_callsign]
    set h := H.hcallsign usi index with hdef
    by_cases h0 : pymod h 5 = 0
    · rw [if_pos h0]
      obtain ⟨a, ha, hup⟩ := pool1_shape h
      rw [patA_of_data (by rw [data_app3, ha])]
      simp [patFamilyA, hup, pyLetter_up, pyDigitCh_dig]
    · rw [if_neg h0]
      by_cases h1 : pymod h 5 = 1
      · rw [if_pos h1]
        obtain ⟨a, ha, hup⟩ := pool1_shape h
        rw [patA_of_data (by rw [data_app3, ha])]
        simp [patFamilyA, hup, pyLetter_up, pyDigitCh_dig]
      · rw [if_neg h1]
        by_cases h2 : pymod h 5 = 2
        · rw [if_pos h2]
          obtain ⟨a, b, hab, hua, hub⟩ := pool2_shape h
          rw [patA_of_data (by rw [data_app3, hab])]
          simp [patFamilyA, hua, hub, pyLetter_up, pyDigitCh_dig]
        · rw [if_neg h2]
          by_cases h3 : pymod h 5 = 3
          · rw [if_pos h3]
            obtain ⟨a, b, hab, hua, hub⟩ := pool2_shape h
            rw [patA_of_data (by rw [data_app3, hab])]
            simp [patFamilyA, hua, hub, pyLetter_up, pyDigitCh_dig]
          · rw [if_neg h3]
            obtain ⟨a, b, hab, hua, hub⟩ := pool2_shape h
            rw [patA_of_data (by rw [data_app3, hab])]
            simp [patFamilyA, hua, hub, pyLetter_up, pyDigitCh_dig]
  · simp only [generate_gmrs_callsign]
    set h := H.hgmrs usi index with hdef
    by_cases h0 : pymod h 2 = 0
    · left
      rw [if_pos h0]
      have hv : (pymod (pyshr h 12) 10000).toNat < 10 ^ 4 := by
        have := pymod_toNat_lt (pyshr h 12) 10000 (by omega)
        simpa using this
      have hlen : (padZeros 4 (pymod (pyshr h 12) 10000).toNat).data.length
          = 4 :=
        padZeros_length 4 _ (natDigitsAux_length _ _ 4 (by omega) hv)
      obtain ⟨d1, d2, d3, d4, hd⟩ := list_len4 hlen
      have hdig : ∀ c ∈ [d1, d2, d3, d4], digCh c = true := by
        intro c hc
        exact padZeros_digits 4 _ c (by rw [hd]; exact hc)
      rw [pat3_of_data (by rw [String.data_append, hd])]
      simp only [pat3L4D, List.cons_append, List.nil_append]
      simp [pyLetter_up, hdig d1 (by simp), hdig d2 (by simp),
        hdig d3 (by simp), hdig d4 (by simp)]
      decide
    · right
      rw [if_neg h0]
      obtain ⟨a, b, hab, hua, hub⟩ := wpqs_shape h
      have hv : (pymod (pyshr h 12) 1000).toNat < 10 ^ 3 := by
        have := pymod_toNat_lt (pyshr h 12) 1000 (by omega)
        simpa using this
      have hlen : (padZeros 3 (pymod (pyshr h 12) 1000).toNat).data.length
          = 3 :=
        padZeros_length 3 _ (natDigitsAux_length _ _ 3 (by omega) hv)
      obtain ⟨d1, d2, d3, hd⟩ := list_len3 hlen
      have hdig : ∀ c ∈ [d1, d2, d3], digCh c = true := by
        intro c hc
        exact padZeros_digits 3 _ c (by rw [hd]; exact hc)
      rw [pat4_of_data (by rw [data_app3, hab, hd])]
      simp only [pat4L3D, List.cons_append, List.nil_append]
      simp [pyLetter_up, hua, hub, hdig d1 (by simp), hdig d2 (by simp),
        hdig d3 (by simp)]

/-- Prepending the last element of a list to its front part permutes the
list. -/
theorem lastCons_take_perm {α : Type} [Inhabited α] :
    ∀ (l : List α), l ≠ [] →
      (l.getD (l.length - 1) default :: l.take (l.length - 1)).Perm l := by
  intro l
  induction l with
  | nil => intro h; exact absurd rfl h
  | cons b t ih =>
    intro _
    cases t with
    | nil => exact List.Perm.refl _
    | cons c t2 =>
      show ((c :: t2).getD t2.length default ::
        b :: (c :: t2).take t2.length).Perm (b :: c :: t2)
      refine (List.Perm.swap b _ _).trans (List.Perm.cons b ?_)
      have := ih (by simp)
      simpa using this

/-- One pool step of the partial Fisher-Yates: emitting slot `j` and
moving the last active element into it permutes the pool. -/
theorem swap_take_perm {α : Type} [Inhabited α] :
    ∀ (pool : List α) (j : Nat), j < pool.length →
      (pool.getD j default ::
        ((pool.set j (pool.getD (pool.length - 1) default)).take
          (pool.length - 1))).Perm pool := by
  intro pool
  induction pool with
  | nil => intro j hj; simp at hj
  | cons a t ih =>
    intro j hj
    cases j with
    | zero =>
      rcases t with _ | ⟨b, t2⟩
      · exact List.Perm.refl _
      · show (a :: ((a :: b :: t2).getD (t2.length + 1) default ::
          (b :: t2).take (t2.length))).Perm (a :: b :: t2)
        refine List.Perm.cons a ?_
        have := lastCons_take_perm (b :: t2) (by simp)
        simpa using this
    | succ k =>
      have hk : k < t.length := by simpa using hj
      rcases t with _ | ⟨b, t2⟩
      · simp at hk
      · show ((b :: t2).getD k default :: a ::
          ((b :: t2).set k ((a :: b :: t2).getD (t2.length + 1)
            default)).take t2.length).Perm (a :: b :: t2)
        refine (List.Perm.swap a _ _).trans (List.Perm.cons a ?_)
        have := ih k hk
        simpa using this

/-- The partial-shuffle sample is a sub-permutation of the pool: it draws
without replacement. -/
theorem pySampleAux_subperm {α : Type} [Inhabited α] (d : Nat → Nat) :
    ∀ (k step : Nat) (pool : List α),
      (pySampleAux d step pool k).Subperm pool := by
  intro k
  induction k with
  | zero => intro step pool; simp [pySampleAux]
  | succ k2 ih =>
    intro step pool
    simp only [pySampleAux]
    by_cases hn : pool.length = 0
    · rw [if_pos hn]
      simp
    · rw [if_neg hn]
      have hj : d step % pool.length < pool.length :=
        Nat.mod_lt _ (by omega)
      have hperm := swap_take_perm pool (d step % pool.length) hj
      have hsub := ih (step + 1)
        ((pool.set (d step % pool.length)
          (pool.getD (pool.length - 1) default)).take (pool.length - 1))
      exact ((List.subperm_cons _).mpr hsub).trans hperm.subperm

/-- The partial-shuffle sample has exactly the requested length when the
request does not exceed the pool. -/
theorem pySampleAux_length {α : Type} [Inhabited α] (d : Nat → Nat) :
    ∀ (k step : Nat) (pool : List α), k ≤ pool.length →
      (pySampleAux d step pool k).length = k := by
  intro k
  induction k with
  | zero => intro step pool _; rfl
  | succ k2 ih =>
    intro step pool hk
    simp only [pySampleAux]
    by_cases hn : pool.length = 0
    · omega
    · rw [if_neg hn]
      have hlen : ((pool.set (d step % pool.length)
          (pool.getD (pool.length - 1) default)).take
            (pool.length - 1)).length = pool.length - 1 := by
        rw [List.length_take, List.length_set]
        omega
      simp only [List.length_cons]
      rw [ih (step + 1) _ (by omega)]

/-- C7 (amended): the remaining quota is split 70/20/10 across the
active/expired/cancelled buckets by binary64 multiplication and `int()`
truncation — which agrees with exact integer truncation of the
percentages for every remaining value below 90 (and for the 20% and 10%
buckets through 1023), and in particular gives 35/10/5 at remaining 50 —
and each bucket draws `min(target, |available not already selected|)`
identifiers without replacement from the available pool, taking all
available without raising when fewer remain than requested. -/
theorem C7_sampler_quotas :
    (∀ r : Nat, r < 90 → statusTargets (r : Int) =
      (((7 * r / 10 : Nat) : Int), ((2 * r / 10 : Nat) : Int),
       ((r / 10 : Nat) : Int))) ∧
    (∀ r : Nat, r < 1024 →
      (statusTargets (r : Int)).2.1 = ((2 * r / 10 : Nat) : Int) ∧
      (statusTargets (r : Int)).2.2 = ((r / 10 : Nat) : Int)) ∧
    statusTargets 50 = (35, 10, 5) ∧
    (∀ (d : Nat → Nat) (sel avail : List String) (t : Nat),
      bucketDraw d sel avail (t : Int) =
        .ok (insertNew sel
          (pySample d (avail.filter fun u => ¬ sel.contains u)
            (min t (avail.filter fun u => ¬ sel.contains u).length))) ∧
      (pySample d (avail.filter fun u => ¬ sel.contains u)
          (min t (avail.filter fun u => ¬ sel.contains u).length)).length =
        min t (avail.filter fun u => ¬ sel.contains u).length ∧
      (↑(pySample d (avail.filter fun u => ¬ sel.contains u)
          (min t (avail.filter fun u => ¬ sel.contains u).length)) :
        Multiset String) ≤
        ↑(avail.filter fun u => ¬ sel.contains u)) := by
  refine ⟨by set_option maxRecDepth 4000 in decide,
    by set_option maxRecDepth 40000 in decide, by decide, ?_⟩
  intro d sel avail t
  set availF := avail.filter fun u => ¬ sel.contains u with havF
  refine ⟨?_, pySampleAux_length d _ 0 availF (min_le_right _ _),
    Multiset.coe_le.mpr (pySampleAux_subperm d _ 0 availF)⟩
  unfold bucketDraw
  rw [← havF]
  by_cases he : availF.isEmpty
  · rw [if_pos he]
    have hnil : availF = [] := by
      rwa [List.isEmpty_iff] at he
    rw [hnil]
    simp [pySample, pySampleAux, insertNew]
  · rw [if_neg he]
    have hk0 : ¬ (min (t : Int) (availF.length : Int) < 0) := by
      simp only [not_lt, le_min_iff]
      constructor <;> positivity
    rw [if_neg hk0]
    have htoNat : (min (t : Int) (availF.length : Int)).toNat =
        min t availF.length := by
      rw [← Nat.cast_min, Int.toNat_natCast]
    rw [htoNat]

theorem C7_sampler_quotas_witness :
    statusTargets ((50 : Nat) : Int) = (35, 10, 5) ∧
    bucketDraw (fun _ => 0) [] ["u1", "u2", "u3"] ((2 : Nat) : Int) =
      .ok ["u1", "u3"] := by
  constructor
  · exact (C7_sampler_quotas.1 50 (by decide)).trans (by decide)
  · exact ((C7_sampler_quotas.2.2.2 (fun _ => 0) [] ["u1", "u2", "u3"]
      2).1).trans (congrArg Except.ok (by decide))

theorem splitPipe_ne_nil : ∀ l : List Char, splitPipe l ≠ [] := by
  intro l
  induction l with
  | nil => simp [splitPipe]
  | cons c rest ih =>
    unfold splitPipe
    split
    · simp
    · cases h : splitPipe rest with
      | nil => exact absurd h ih
      | cons f fs => simp

theorem splitPipe_no_pipe :
    ∀ (l : List Char) (f : List Char), f ∈ splitPipe l → '|' ∉ f := by
  intro l
  induction l with
  | nil =>
    intro f hf
    simp [splitPipe] at hf
    simp [hf]
  | cons c rest ih =>
    intro f hf
    unfold splitPipe at hf
    split at hf
    · rcases List.mem_cons.mp hf with hf | hf
      · simp [hf]
      · exact ih f hf
    · next hc =>
      cases h : splitPipe rest with
      | nil => exact absurd h (splitPipe_ne_nil rest)
      | cons g gs =>
        rw [h] at hf
        rcases List.mem_cons.mp hf with hf | hf
        · subst hf
          simp only [List.mem_cons]
          rintro (h1 | h1)
          · exact hc h1.symm
          · exact ih g (h ▸ List.mem_cons_self g gs) h1
        · exact ih f (h ▸ List.mem_cons_of_mem g hf)

theorem joinPipe_cons_head (c : Char) (f : List Char)
    (fs : List (List Char)) :
    joinPipe ((c :: f) :: fs) = c :: joinPipe (f :: fs) := by
  cases fs <;> rfl

theorem joinPipe_splitPipe : ∀ l : List Char, joinPipe (splitPipe l) = l := by
  intro l
  induction l with
  | nil => rfl
  | cons c rest ih =>
    unfold splitPipe
    split
    · next hc =>
      subst hc
      cases h : splitPipe rest with
      | nil => exact absurd h (splitPipe_ne_nil rest)
      | cons g gs =>
        have hj : joinPipe ([] :: g :: gs) = '|' :: joinPipe (g :: gs) := rfl
        rw [hj, ← h, ih]
    · next hc =>
      cases h : splitPipe rest with
      | nil => exact absurd h (splitPipe_ne_nil rest)
      | cons g gs =>
        have hm : (match g :: gs with
            | f :: fs => (c :: f) :: fs
            | [] => [[c]]) = (c :: g) :: gs := rfl
        rw [hm, joinPipe_cons_head, ← h, ih]

theorem C5_en_frame_witness :
    (anonymizeFields HM "EN" "U" "K1AA"
        ["EN", "U", "x", "x", "x", "x", "x", "x", "x", "x", "x", "x", "",
         "x"]).getD 12 "" = "" ∧
    (anonymizeFields HM "EN" "U" "K1AA"
        ["EN", "U", "x", "x", "x", "x", "x", "x", "x", "x", "x", "x", "",
         "x"]).getD 8 "" = (generate_fake_name HM "U").1 :=
  ⟨(C5_en_frame HM "U" "K1AA" _).1 12 (by decide) rfl,
   (C5_en_frame HM "U" "K1AA" _).2.2.1 (by decide)⟩

/-- The last character of a pipe-join is the last character of the last
component (when that component is non-empty). -/
theorem joinPipe_getLast_of_last :
    ∀ (fss : List (List Char)) (lf : List Char) (c : Char),
      fss.getLast? = some lf → lf.getLast? = some c →
      (joinPipe fss).getLast? = some c := by
  intro fss
  induction fss with
  | nil => intro lf c h; cases h
  | cons f t ih =>
    intro lf c hlast hc
    cases t with
    | nil =>
      simp at hlast
      subst hlast
      exact hc
    | cons g t2 =>
      have hlast2 : (g :: t2).getLast? = some lf := by
        simpa using hlast
      have hj : joinPipe (f :: g :: t2) = f ++ '|' :: joinPipe (g :: t2) :=
        rfl
      rw [hj, List.getLast?_append]
      have := ih lf c hlast2 hc
      cases hJ : joinPipe (g :: t2) with
      | nil => rw [hJ] at this; cases this
      | cons j js =>
        rw [hJ] at this
        have hgl : ('|' :: j :: js).getLast? = some c := by
          rw [← this]
          simp [List.getLast?]
        rw [hgl]
        rfl

/-- Fields produced by `parse_dat_line` contain no delimiter. -/
theorem parse_fields_no_pipe (line : String) (f : String)
    (hf : f ∈ (parse_dat_line line).2) : ('|' : Char) ∉ f.data := by
  unfold parse_dat_line at hf
  simp only [List.mem_map] at hf
  obtain ⟨cs, hcs, heq⟩ := hf
  rw [← heq]
  exact splitPipe_no_pipe _ cs hcs
theorem rstripData_append_pipe (a b : List Char) :
    ((a ++ '|' :: b).reverse.dropWhile isCRLF).reverse =
      a ++ '|' :: (b.reverse.dropWhile isCRLF).reverse := by
  have hdw : ∀ (xs ys : List Char),
      List.dropWhile isCRLF (xs ++ '|' :: ys) =
        List.dropWhile isCRLF xs ++ '|' :: ys := by
    intro xs
    induction xs with
    | nil =>
      intro ys
      show List.dropWhile isCRLF ('|' :: ys) = '|' :: ys
      rw [List.dropWhile_cons]
      have hp : isCRLF '|' = false := rfl
      rw [hp]
      simp
    | cons x t ihx =>
      intro ys
      rw [List.cons_append, List.dropWhile_cons, List.dropWhile_cons]
      by_cases hx : isCRLF x = true
      · simp only [hx, if_true]
        exact ihx ys
      · simp only [hx]
        simp
  rw [List.reverse_append, List.reverse_cons, List.append_assoc,
    List.singleton_append, hdw, List.reverse_append, List.reverse_cons,
    List.append_assoc, List.singleton_append, List.reverse_reverse]

theorem rstripData_no_trailing (l : List Char) (c : Char)
    (h : ((l.reverse.dropWhile isCRLF).reverse).getLast? = some c) :
    isCRLF c = false := by
  rw [← List.head?_reverse, List.reverse_reverse] at h
  cases hd : List.dropWhile isCRLF l.reverse with
  | nil => rw [hd] at h; cases h
  | cons x t =>
    rw [hd] at h
    simp at h
    subst h
    exact dropWhile_head_false hd

theorem rstripData_noop (l : List Char)
    (h : ∀ c, l.getLast? = some c → isCRLF c = false) :
    (l.reverse.dropWhile isCRLF).reverse = l := by
  cases hl : l.reverse with
  | nil =>
    have : l = [] := by simpa [List.reverse_eq_nil_iff] using hl
    simp [this]
  | cons x t =>
    have hx : l.getLast? = some x := by
      rw [← List.head?_reverse, hl]
      rfl
    rw [List.dropWhile_cons, h x hx]
    simp [← hl]

theorem splitPipe_append_pipe :
    ∀ (f : List Char), ('|' : Char) ∉ f → ∀ (r : List Char),
      splitPipe (f ++ '|' :: r) = f :: splitPipe r := by
  intro f
  induction f with
  | nil => intro _ r; rfl
  | cons x f2 ih =>
    intro hx r
    have hxp : ¬ (x = '|') := by
      intro h
      exact hx (by rw [h]; exact List.mem_cons_self _ _)
    show splitPipe (x :: (f2 ++ '|' :: r)) = (x :: f2) :: splitPipe r
    rw [show splitPipe (x :: (f2 ++ '|' :: r)) =
        (match splitPipe (f2 ++ '|' :: r) with
          | f :: fs => (x :: f) :: fs
          | [] => [[x]]) from by rw [splitPipe, if_neg hxp],
      ih (fun hm => hx (List.mem_cons_of_mem x hm)) r]

theorem splitPipe_of_no_pipe :
    ∀ (f : List Char), ('|' : Char) ∉ f → splitPipe f = [f] := by
  intro f
  induction f with
  | nil => intro _; rfl
  | cons x f2 ih =>
    intro hx
    have hxp : ¬ (x = '|') := by
      intro h
      exact hx (by rw [h]; exact List.mem_cons_self _ _)
    rw [show splitPipe (x :: f2) =
        (match splitPipe f2 with
          | f :: fs => (x :: f) :: fs
          | [] => [[x]]) from by rw [splitPipe, if_neg hxp],
      ih (fun hm => hx (List.mem_cons_of_mem x hm))]

theorem mk_data (s : String) : (⟨s.data⟩ : String) = s := rfl

theorem getD_map_mk (l : List (List Char)) (i : Nat) :
    ((l.map (fun cs => (⟨cs⟩ : String))).getD i "") = ⟨l.getD i []⟩ := by
  rw [List.getD_eq_get?, List.getD_eq_get?, List.get?_map]
  cases l.get? i <;> rfl

theorem getD_mem {l : List String} {i : Nat} (h : i < l.length) :
    l.getD i "" ∈ l := by
  rw [List.getD_eq_get _ _ h]
  exact List.get_mem l i h

/-- The identifier column survives a join-and-reparse when the first two
fields are delimiter-free (with a trailing-terminator condition when the
identifier field is also the last field). -/
theorem fieldOne_join (fs : List String) (h2 : 2 ≤ fs.length)
    (h0 : ('|' : Char) ∉ (fs.getD 0 "").data)
    (h1 : ('|' : Char) ∉ (fs.getD 1 "").data)
    (hl : fs.length = 2 → ∀ c, (fs.getD 1 "").data.getLast? = some c →
      isCRLF c = false) :
    fieldOne (pyJoinPipe fs) = fs.getD 1 "" := by
  rcases fs with _ | ⟨f0, _ | ⟨f1, rest⟩⟩
  · simp at h2
  · simp at h2
  · have h0d : ('|' : Char) ∉ f0.data := h0
    have h1d : ('|' : Char) ∉ f1.data := h1
    show fieldOne ⟨joinPipe (f0.data :: f1.data :: rest.map String.data)⟩
      = f1
    cases rest with
    | nil =>
      have hJ : joinPipe (f0.data :: f1.data :: ([] : List String).map
          String.data) = f0.data ++ '|' :: f1.data := rfl
      rw [hJ]
      show (((splitPipe ((f0.data ++ '|' ::
        f1.data).reverse.dropWhile isCRLF).reverse).map
          (fun cs => (⟨cs⟩ : String))).getD 1 "") = f1
      rw [rstripData_append_pipe, rstripData_noop f1.data (hl rfl),
        splitPipe_append_pipe f0.data h0d, splitPipe_of_no_pipe f1.data h1d,
        getD_map_mk]
      rfl
    | cons r2 t2 =>
      have hJ : joinPipe (f0.data :: f1.data :: (r2 :: t2).map
          String.data) = f0.data ++ '|' :: (f1.data ++ '|' ::
            joinPipe ((r2 :: t2).map String.data)) := rfl
      rw [hJ]
      show (((splitPipe ((f0.data ++ '|' :: (f1.data ++ '|' ::
        joinPipe ((r2 :: t2).map
          String.data))).reverse.dropWhile isCRLF).reverse).map
          (fun cs => (⟨cs⟩ : String))).getD 1 "") = f1
      rw [rstripData_append_pipe, rstripData_append_pipe,
        splitPipe_append_pipe f0.data h0d,
        splitPipe_append_pipe f1.data h1d, getD_map_mk]
      rfl
theorem parse_fields_lastClean (line : String) (lf : String) (c : Char)
    (hlast : (parse_dat_line line).2.getLast? = some lf)
    (hc : lf.data.getLast? = some c) : isCRLF c = false := by
  unfold parse_dat_line at hlast
  rw [List.getLast?_map] at hlast
  cases hsp : (splitPipe (pyRstripCRLF line).data).getLast? with
  | none => rw [hsp] at hlast; cases hlast
  | some cs =>
    rw [hsp] at hlast
    simp only [Option.map_some', Option.some.injEq] at hlast
    have hcs : cs.getLast? = some c := by
      rw [← hlast] at hc
      exact hc
    have hjoin := joinPipe_getLast_of_last _ cs c hsp hcs
    rw [joinPipe_splitPipe] at hjoin
    exact rstripData_no_trailing line.data c hjoin

theorem lookup_mem {β : Type} :
    ∀ {l : List (String × β)} {k : String} {v : β},
      l.lookup k = some v → (k, v) ∈ l := by
  intro l
  induction l with
  | nil => intro k v h; cases h
  | cons p t ih =>
    intro k v h
    rcases p with ⟨a, b⟩
    rw [List.lookup] at h
    cases hbeq : (k == a) with
    | true =>
      simp only [hbeq] at h
      cases h
      exact (eq_of_beq hbeq) ▸ List.mem_cons_self _ _
    | false =>
      simp only [hbeq] at h
      exact List.mem_cons_of_mem _ (ih h)

theorem nodup_lookup {β : Type} :
    ∀ {l : List (String × β)} {k : String} {v : β},
      (l.map Prod.fst).Nodup → (k, v) ∈ l → l.lookup k = some v := by
  intro l
  induction l with
  | nil => intro k v _ h; cases h
  | cons p t ih =>
    intro k v hnd hmem
    rcases p with ⟨a, b⟩
    rw [List.map_cons] at hnd
    rcases List.mem_cons.mp hmem with heq | hmem2
    · cases heq
      rw [List.lookup]
      have : (k == k) = true := beq_self_eq_true k
      simp only [this]
    · have hk : k ≠ a := by
        intro hka
        subst hka
        have : k ∈ t.map Prod.fst :=
          List.mem_map_of_mem Prod.fst hmem2
        exact (List.nodup_cons.mp hnd).1 this
      rw [List.lookup]
      have : (k == a) = false := by
        rw [beq_eq_false_iff_ne]
        exact hk
      simp only [this]
      exact ih (List.nodup_cons.mp hnd).2 hmem2

theorem record_types_getD_one (rt : String) :
    ((RECORD_TYPES.lookup rt).getD 1) = 1 := by
  cases h : RECORD_TYPES.lookup rt with
  | none => rfl
  | some v =>
    have hmem := lookup_mem h
    have hall : ∀ p ∈ RECORD_TYPES, p.2 = 1 := by decide
    have := hall _ hmem
    simp only [Option.getD_some]
    simpa using this

theorem get_usi_eq (rt : String) (fs : List String) :
    get_usi rt fs =
      if 1 < fs.length then some (fs.getD 1 "") else none := by
  unfold get_usi
  rw [record_types_getD_one]
theorem getD_set_ne (fs : List String) (i j : Nat) (v : String)
    (h : i ≠ j) : (fs.set i v).getD j "" = fs.getD j "" := by
  rw [List.getD_eq_get?, List.getD_eq_get?, List.get?_set_ne v fs h]

theorem foldl_setIfNE_length (idxs : List Nat) :
    ∀ fs : List String,
      (idxs.foldl (fun fs i => setIfNE fs i "") fs).length = fs.length := by
  induction idxs with
  | nil => intro fs; rfl
  | cons i t ih => intro fs; rw [List.foldl_cons, ih, length_setIfNE]

theorem foldl_setIfNE_getD (j : Nat) :
    ∀ (idxs : List Nat), (∀ i ∈ idxs, i ≠ j) →
      ∀ fs : List String,
        (idxs.foldl (fun fs i => setIfNE fs i "") fs).getD j "" =
          fs.getD j "" := by
  intro idxs
  induction idxs with
  | nil => intro _ fs; rfl
  | cons i t ih =>
    intro hj fs
    rw [List.foldl_cons, ih (fun x hx => hj x (List.mem_cons_of_mem _ hx)),
      getD_setIfNE_ne fs i j "" (hj i (List.mem_cons_self _ _))]

theorem foldl_condSet_length (cs : String) (idxs : List Nat) :
    ∀ fs : List String,
      (idxs.foldl
        (fun fs i =>
          if i < fs.length ∧ fs.getD i "" ≠ "" ∧
              looksLikeCallsign (fs.getD i "") then
            fs.set i cs
          else fs)
        fs).length = fs.length := by
  induction idxs with
  | nil => intro fs; rfl
  | cons i t ih =>
    intro fs
    rw [List.foldl_cons, ih]
    split <;> simp

theorem foldl_condSet_getD (cs : String) (j : Nat) :
    ∀ (idxs : List Nat), (∀ i ∈ idxs, i ≠ j) →
      ∀ fs : List String,
        (idxs.foldl
          (fun fs i =>
            if i < fs.length ∧ fs.getD i "" ≠ "" ∧
                looksLikeCallsign (fs.getD i "") then
              fs.set i cs
            else fs)
          fs).getD j "" = fs.getD j "" := by
  intro idxs
  induction idxs with
  | nil => intro _ fs; rfl
  | cons i t ih =>
    intro hj fs
    rw [List.foldl_cons, ih (fun x hx => hj x (List.mem_cons_of_mem _ hx))]
    split
    · exact getD_set_ne fs i j cs (hj i (List.mem_cons_self _ _))
    · rfl

theorem coBranch_length (H : PyHash) (usi : String) (fs2 : List String) :
    (if 5 < fs2.length ∧ fs2.getD 5 "" ≠ "" then
        if pymod (H.hcomment usi) 5 = 0 then fs2.set 5 MULTILINE_COMMENT
        else fs2.set 5 "Test comment for fixture data."
      else fs2).length = fs2.length := by
  by_cases hC : 5 < fs2.length ∧ fs2.getD 5 "" ≠ ""
  · rw [if_pos hC]
    by_cases hm : pymod (H.hcomment usi) 5 = 0
    · rw [if_pos hm, List.length_set]
    · rw [if_neg hm, List.length_set]
  · rw [if_neg hC]

theorem coBranch_getD (H : PyHash) (usi : String) (fs2 : List String)
    (j : Nat) (hj : j ≠ 5) :
    (if 5 < fs2.length ∧ fs2.getD 5 "" ≠ "" then
        if pymod (H.hcomment usi) 5 = 0 then fs2.set 5 MULTILINE_COMMENT
        else fs2.set 5 "Test comment for fixture data."
      else fs2).getD j "" = fs2.getD j "" := by
  by_cases hC : 5 < fs2.length ∧ fs2.getD 5 "" ≠ ""
  · rw [if_pos hC]
    by_cases hm : pymod (H.hcomment usi) 5 = 0
    · rw [if_pos hm]
      exact getD_set_ne fs2 5 j _ (fun h => hj h.symm)
    · rw [if_neg hm]
      exact getD_set_ne fs2 5 j _ (fun h => hj h.symm)
  · rw [if_neg hC]

theorem anonymizeFields_length (H : PyHash) (rt usi cs : String)
    (fs : List String) :
    (anonymizeFields H rt usi cs fs).length = fs.length := by
  unfold anonymizeFields
  by_cases h1 : rt = "HD"
  · rw [if_pos h1, foldl_setIfNE_length, length_setIfLen]
  rw [if_neg h1]
  by_cases h2 : rt = "EN"
  · rw [if_pos h2]
    simp only [length_setIfNE, length_setIfLen]
  rw [if_neg h2]
  by_cases h3 : rt = "AM"
  · rw [if_pos h3, length_setIfLen]
  rw [if_neg h3]
  by_cases h4 : rt = "CO"
  · rw [if_pos h4]
    exact (coBranch_length H usi (setIfLen fs 3 cs)).trans
      (length_setIfLen fs 3 cs)
  rw [if_neg h4]
  by_cases h5 : rt = "HS" ∨ rt = "SC" ∨ rt = "SF" ∨ rt = "LA"
  · rw [if_pos h5, foldl_condSet_length]
  · rw [if_neg h5]

theorem anonymizeFields_getD_low (H : PyHash) (rt usi cs : String)
    (fs : List String) (j : Nat) (hj : j < 3) :
    (anonymizeFields H rt usi cs fs).getD j "" = fs.getD j "" := by
  unfold anonymizeFields
  by_cases h1 : rt = "HD"
  · rw [if_pos h1,
      foldl_setIfNE_getD j [28, 29, 30, 31, 32]
        (by
          intro i hi
          simp only [List.mem_cons, List.not_mem_nil, or_false] at hi
          omega),
      getD_setIfLen_ne _ 4 j _ (by omega)]
  rw [if_neg h1]
  by_cases h2 : rt = "EN"
  · rw [if_pos h2,
      getD_setIfNE_ne _ 22 j _ (by omega),
      getD_setIfNE_ne _ 18 j _ (by omega),
      getD_setIfNE_ne _ 17 j _ (by omega),
      getD_setIfNE_ne _ 16 j _ (by omega),
      getD_setIfNE_ne _ 15 j _ (by omega),
      getD_setIfNE_ne _ 14 j _ (by omega),
      getD_setIfNE_ne _ 12 j _ (by omega),
      getD_setIfLen_ne _ 10 j _ (by omega),
      getD_setIfLen_ne _ 9 j _ (by omega),
      getD_setIfLen_ne _ 8 j _ (by omega),
      getD_setIfLen_ne _ 7 j _ (by omega),
      getD_setIfLen_ne _ 4 j _ (by omega)]
  rw [if_neg h2]
  by_cases h3 : rt = "AM"
  · rw [if_pos h3, getD_setIfLen_ne _ 4 j _ (by omega)]
  rw [if_neg h3]
  by_cases h4 : rt = "CO"
  · rw [if_pos h4]
    exact (coBranch_getD H usi (setIfLen fs 3 cs) j (by omega)).trans
      (getD_setIfLen_ne fs 3 j cs (by omega))
  rw [if_neg h4]
  by_cases h5 : rt = "HS" ∨ rt = "SC" ∨ rt = "SF" ∨ rt = "LA"
  · rw [if_pos h5,
      foldl_condSet_getD cs j [3, 4]
        (by
          intro i hi
          simp only [List.mem_cons, List.not_mem_nil, or_false] at hi
          omega)]
  · rw [if_neg h5]
theorem fieldOne_eq (s : String) :
    fieldOne s = (parse_dat_line s).2.getD 1 "" := rfl

theorem fieldOne_join_anon (H : PyHash) (rt usi cs : String) (raw : String)
    (h2 : 2 ≤ (parse_dat_line raw).2.length) :
    fieldOne (pyJoinPipe (anonymizeFields H rt usi cs
        (parse_dat_line raw).2)) =
      (parse_dat_line raw).2.getD 1 "" := by
  have hlen' := anonymizeFields_length H rt usi cs (parse_dat_line raw).2
  have hg0 := anonymizeFields_getD_low H rt usi cs (parse_dat_line raw).2 0
    (by omega)
  have hg1 := anonymizeFields_getD_low H rt usi cs (parse_dat_line raw).2 1
    (by omega)
  rw [fieldOne_join _ (by omega)
    (by rw [hg0]; exact parse_fields_no_pipe raw _ (getD_mem (by omega)))
    (by rw [hg1]; exact parse_fields_no_pipe raw _ (getD_mem (by omega)))
    (by
      intro hl2 c hc
      rw [hg1] at hc
      apply parse_fields_lastClean raw ((parse_dat_line raw).2.getD 1 "") c _
        hc
      rw [hlen'] at hl2
      rcases hsh : (parse_dat_line raw).2 with _ | ⟨a, _ | ⟨b, rest⟩⟩
      · rw [hsh] at hl2; cases hl2
      · rw [hsh] at hl2; cases hl2
      · rw [hsh] at hl2
        simp only [List.length_cons] at hl2
        have : rest = [] := by
          cases rest with
          | nil => rfl
          | cons x t => simp at hl2
        subst this
        rfl), hg1]

theorem anonymize_fieldOne (H : PyHash) (raw svc : String)
    (m : CallsignMap) :
    fieldOne (anonymize_record H raw svc m).1 = fieldOne raw := by
  unfold anonymize_record
  by_cases hlen : (parse_dat_line raw).2.length < 2
  · rw [if_pos hlen]
  · rw [if_neg hlen]
    exact fieldOne_join_anon H _ _ _ raw (by omega)

theorem mem_insertNew {α : Type} [DecidableEq α] :
    ∀ (xs sel : List α) (x : α),
      x ∈ insertNew sel xs → x ∈ sel ∨ x ∈ xs := by
  intro xs
  induction xs with
  | nil => intro sel x h; exact Or.inl h
  | cons y t ih =>
    intro sel x h
    rw [insertNew, List.foldl_cons] at h
    rcases ih (if sel.contains y then sel else sel ++ [y]) x h with hs | ht
    · by_cases hc : sel.contains y
      · rw [if_pos hc] at hs
        exact Or.inl hs
      · rw [if_neg hc] at hs
        rcases List.mem_append.mp hs with h1 | h1
        · exact Or.inl h1
        · simp only [List.mem_singleton] at h1
          exact Or.inr (h1 ▸ List.mem_cons_self _ _)
    · exact Or.inr (List.mem_cons_of_mem _ ht)

theorem mem_pySample {α : Type} [Inhabited α] (d : Nat → Nat)
    (pool : List α) (k : Nat) (x : α) (h : x ∈ pySample d pool k) :
    x ∈ pool :=
  (pySampleAux_subperm d k 0 pool).subset h

theorem mem_bucketDraw (d : Nat → Nat) (sel avail : List String) (t : Int)
    (sel2 : List String) (h : bucketDraw d sel avail t = .ok sel2) :
    ∀ x ∈ sel2, x ∈ sel ∨ x ∈ avail := by
  intro x hx
  simp only [bucketDraw] at h
  split at h
  · cases h
    exact Or.inl hx
  · split at h
    · cases h
    · cases h
      rcases mem_insertNew _ _ _ hx with hs | hp
      · exact Or.inl hs
      · exact Or.inr (List.mem_filter.mp (mem_pySample d _ _ x hp)).1

theorem mem_csFoldl (hd : List RawRecord) :
    ∀ (csl : List String) (acc : List String) (x : String),
      x ∈ csl.foldl
        (fun acc cs =>
          match byCallsign hd cs with
          | some u => if acc.contains u then acc else acc ++ [u]
          | none => acc) acc →
      x ∈ acc ∨ ∃ cs, byCallsign hd cs = some x := by
  intro csl
  induction csl with
  | nil => intro acc x h; exact Or.inl h
  | cons c t ih =>
    intro acc x h
    rw [List.foldl_cons] at h
    rcases ih _ x h with hacc | hex
    · cases hbc : byCallsign hd c with
      | none =>
        simp only [hbc] at hacc
        exact Or.inl hacc
      | some u =>
        simp only [hbc] at hacc
        by_cases hc : acc.contains u
        · rw [if_pos hc] at hacc
          exact Or.inl hacc
        · rw [if_neg hc] at hacc
          rcases List.mem_append.mp hacc with h1 | h1
          · exact Or.inl h1
          · simp only [List.mem_singleton] at h1
            exact Or.inr ⟨c, h1 ▸ hbc⟩
    · exact Or.inr hex

theorem byCallsign_spec (hd : List RawRecord) (cs u : String)
    (h : byCallsign hd cs = some u) :
    ∃ r ∈ hd, 5 < r.fields.length ∧ r.fields.getD 1 "" = u := by
  unfold byCallsign at h
  have hmem := lookup_mem h
  rw [List.mem_reverse, List.mem_filterMap] at hmem
  obtain ⟨r, hr, hsome⟩ := hmem
  split at hsome
  · rename_i hC
    simp only [Option.some.injEq, Prod.mk.injEq] at hsome
    exact ⟨r, hr, hC.1, hsome.2⟩
  · cases hsome

theorem byStatus_spec (hd : List RawRecord) (st u : String)
    (h : u ∈ byStatus hd st) :
    ∃ r ∈ hd, 5 < r.fields.length ∧ r.fields.getD 1 "" = u := by
  unfold byStatus at h
  rw [List.mem_filterMap] at h
  obtain ⟨r, hr, hsome⟩ := h
  split at hsome
  · rename_i hC
    simp only [Option.some.injEq] at hsome
    exact ⟨r, hr, hC.1, hsome⟩
  · cases hsome

theorem select_spec (hd : List RawRecord) (count : Int)
    (dA dE dC : Nat → Nat) (sel : List String)
    (h : select_sample_licenses hd count dA dE dC = .ok sel) :
    ∀ x ∈ sel, ∃ r ∈ hd, 5 < r.fields.length ∧ r.fields.getD 1 "" = x := by
  intro x hx
  have hone : ∀ y : String, (∃ cs, byCallsign hd cs = some y) ∨
      y ∈ byStatus hd "A" ∨ y ∈ byStatus hd "E" ∨ y ∈ byStatus hd "C" →
      ∃ r ∈ hd, 5 < r.fields.length ∧ r.fields.getD 1 "" = y := by
    intro y hy
    rcases hy with ⟨cs, hcs⟩ | hy | hy | hy
    · exact byCallsign_spec hd cs y hcs
    · exact byStatus_spec hd "A" y hy
    · exact byStatus_spec hd "E" y hy
    · exact byStatus_spec hd "C" y hy
  apply hone
  simp only [select_sample_licenses] at h
  split at h
  · cases h
  · rename_i sel1 hA
    split at h
    · cases h
    · rename_i sel2 hE
      rcases mem_bucketDraw _ _ _ _ _ h x hx with h2 | h2
      · rcases mem_bucketDraw _ _ _ _ _ hE x h2 with h1 | h1
        · rcases mem_bucketDraw _ _ _ _ _ hA x h1 with h0 | h0
          · rcases mem_csFoldl hd known_callsigns [] x h0 with hnil | hex
            · cases hnil
            · exact Or.inl hex
          · exact Or.inr (Or.inl h0)
        · exact Or.inr (Or.inr (Or.inl h1))
      · exact Or.inr (Or.inr (Or.inr h2))

theorem mem_enrichOne (recs : String → List RawRecord) (rt : String)
    (d : Nat → Nat) (ord : List (Option String) → List (Option String))
    (hord : ∀ l, (ord l).Perm l) (sel : List (Option String))
    (u : Option String) (h : u ∈ enrichOne recs rt d ord sel) :
    u ∈ sel ∨ ∃ r ∈ recs rt, get_usi rt r.fields = u := by
  simp only [enrichOne] at h
  split at h
  · exact Or.inl h
  · rcases mem_insertNew _ _ _ h with hs | hp
    · exact Or.inl hs
    · right
      have h1 := mem_pySample d _ _ u hp
      have h2 := (hord _).mem_iff.mp h1
      have h3 := (List.mem_filter.mp h2).1
      rw [List.mem_dedup, List.mem_map] at h3
      exact h3
theorem anonFilterPass_mem (H : PyHash) (svc : String)
    (sel : List (Option String)) :
    ∀ (rs : List RawRecord) (m : CallsignMap) (l : String),
      l ∈ (anonFilterPass H svc sel m rs).1 →
      ∃ r ∈ rs, sel.contains (get_usi r.rt r.fields) = true ∧
        fieldOne l = fieldOne r.raw := by
  intro rs
  induction rs with
  | nil => intro m l h; cases h
  | cons r rest ih =>
    intro m l h
    rw [anonFilterPass] at h
    split at h
    · rename_i hc
      rcases List.mem_cons.mp h with hl | hl
      · subst hl
        exact ⟨r, List.mem_cons_self _ _, hc,
          anonymize_fieldOne H r.raw svc m⟩
      · obtain ⟨r2, hr2, hc2, hf2⟩ := ih _ l hl
        exact ⟨r2, List.mem_cons_of_mem _ hr2, hc2, hf2⟩
    · obtain ⟨r2, hr2, hc2, hf2⟩ := ih _ l h
      exact ⟨r2, List.mem_cons_of_mem _ hr2, hc2, hf2⟩

theorem anonFilterPass_keep (H : PyHash) (svc : String)
    (sel : List (Option String)) :
    ∀ (rs : List RawRecord) (m : CallsignMap) (r : RawRecord),
      r ∈ rs → sel.contains (get_usi r.rt r.fields) = true →
      ∃ l ∈ (anonFilterPass H svc sel m rs).1,
        fieldOne l = fieldOne r.raw := by
  intro rs
  induction rs with
  | nil => intro m r hr _; cases hr
  | cons r0 rest ih =>
    intro m r hr hc
    rcases List.mem_cons.mp hr with he | hm
    · subst he
      rw [anonFilterPass]
      split
      · exact ⟨_, List.mem_cons_self _ _,
          anonymize_fieldOne H r.raw svc m⟩
      · rename_i hnc
        exact absurd hc hnc
    · rw [anonFilterPass]
      split
      · obtain ⟨l, hl, hfl⟩ := ih _ r hm hc
        exact ⟨l, List.mem_cons_of_mem _ hl, hfl⟩
      · exact ih _ r hm hc

theorem anonAllTypes_mem (H : PyHash) (svc : String)
    (sel : List (Option String)) :
    ∀ (pairs : List (String × List RawRecord)) (m : CallsignMap)
      (rt : String) (ls : List String),
      (rt, ls) ∈ (anonAllTypes H svc sel m pairs).1 →
      ∃ rs, (rt, rs) ∈ pairs ∧
        ∃ m2, ls = (anonFilterPass H svc sel m2 rs).1 := by
  intro pairs
  induction pairs with
  | nil => intro m rt ls h; cases h
  | cons p rest ih =>
    intro m rt ls h
    rcases p with ⟨rt0, rs0⟩
    rw [anonAllTypes] at h
    rcases List.mem_cons.mp h with he | hm
    · rw [Prod.mk.injEq] at he
      obtain ⟨h1, h2⟩ := he
      subst h1
      exact ⟨rs0, List.mem_cons_self _ _, m, h2⟩
    · obtain ⟨rs, hrs, m2, hm2⟩ := ih _ rt ls hm
      exact ⟨rs, List.mem_cons_of_mem _ hrs, m2, hm2⟩

theorem anonAllTypes_keys (H : PyHash) (svc : String)
    (sel : List (Option String)) :
    ∀ (pairs : List (String × List RawRecord)) (m : CallsignMap),
      (anonAllTypes H svc sel m pairs).1.map Prod.fst =
        pairs.map Prod.fst := by
  intro pairs
  induction pairs with
  | nil => intro m; rfl
  | cons p rest ih =>
    intro m
    rcases p with ⟨rt0, rs0⟩
    simp only [anonAllTypes, List.map_cons]
    rw [ih]

theorem anonAllTypes_keep (H : PyHash) (svc : String)
    (sel : List (Option String)) :
    ∀ (pairs : List (String × List RawRecord)) (m : CallsignMap)
      (rt : String) (rs : List RawRecord),
      (rt, rs) ∈ pairs →
      ∃ m2, (rt, (anonFilterPass H svc sel m2 rs).1) ∈
        (anonAllTypes H svc sel m pairs).1 := by
  intro pairs
  induction pairs with
  | nil => intro m rt rs h; cases h
  | cons p rest ih =>
    intro m rt rs h
    rcases p with ⟨rt0, rs0⟩
    rcases List.mem_cons.mp h with he | hm
    · rw [Prod.mk.injEq] at he
      obtain ⟨h1, h2⟩ := he
      subst h1
      subst h2
      exact ⟨m, List.mem_cons_self _ _⟩
    · obtain ⟨m2, hmem⟩ := ih (anonFilterPass H svc sel m rs0).2 rt rs hm
      exact ⟨m2, List.mem_cons_of_mem _ hmem⟩

theorem selO_cover (recs : String → List RawRecord) (count : Int)
    (D : Draws) (sel : List String)
    (hordCO : ∀ l, (D.ordCO l).Perm l) (hordHS : ∀ l, (D.ordHS l).Perm l)
    (hordSC : ∀ l, (D.ordSC l).Perm l)
    (hsel : select_sample_licenses (recs "HD") count D.dA D.dE D.dC =
      .ok sel)
    (hcov : ∀ rt ∈ (["CO", "HS", "SC"] : List String), ∀ r ∈ recs rt,
      hdCovers recs (get_usi rt r.fields)) :
    ∀ u ∈ enrichOne recs "SC" D.dSC D.ordSC
        (enrichOne recs "HS" D.dHS D.ordHS
          (enrichOne recs "CO" D.dCO D.ordCO (sel.map some))),
      hdCovers recs u := by
  intro u hu
  rcases mem_enrichOne recs "SC" _ _ hordSC _ u hu with hu | ⟨r, hr, heq⟩
  · rcases mem_enrichOne recs "HS" _ _ hordHS _ u hu with hu | ⟨r, hr, heq⟩
    · rcases mem_enrichOne recs "CO" _ _ hordCO _ u hu with
        hu | ⟨r, hr, heq⟩
      · rw [List.mem_map] at hu
        obtain ⟨x, hx, hxu⟩ := hu
        obtain ⟨r, hr, hlen, hgd⟩ := select_spec _ _ _ _ _ _ hsel x hx
        exact ⟨r, hr, by omega, by rw [hgd]; exact hxu⟩
      · exact heq ▸ hcov "CO" (by decide) r hr
    · exact heq ▸ hcov "HS" (by decide) r hr
  · exact heq ▸ hcov "SC" (by decide) r hr
theorem outPass_refint (recs : String → List RawRecord) (svc : String)
    (H : PyHash) (selO : List (Option String)) (present : List String)
    (hf : ∀ rt ∈ RECORD_TYPE_KEYS, ∀ r ∈ recs rt,
      r.rt = rt ∧ r.fields = (parse_dat_line r.raw).2)
    (hpres : present =
      RECORD_TYPE_KEYS.filter (fun rt => ¬(recs rt).isEmpty))
    (hHD : ¬(recs "HD").isEmpty = true)
    (hcover : ∀ u ∈ selO, hdCovers recs u) :
    refIntactOk
      ((anonAllTypes H svc selO []
          (present.map (fun rt => (rt, recs rt)))).1.filter
        (fun p => ¬ p.2.isEmpty)) = true := by
  set pre := (anonAllTypes H svc selO []
    (present.map (fun rt => (rt, recs rt)))).1 with hpre
  have hkeys : pre.map Prod.fst = present := by
    rw [hpre, anonAllTypes_keys, List.map_map]
    exact List.map_id present
  have hnodup :
      ((pre.filter (fun p => ¬ p.2.isEmpty)).map Prod.fst).Nodup := by
    apply List.Nodup.sublist
      (List.Sublist.map Prod.fst (List.filter_sublist _))
    rw [hkeys, hpres]
    exact List.Nodup.filter _ (by decide)
  rw [refIntactOk, List.all_eq_true]
  intro p hp
  rw [Bool.or_eq_true]
  by_cases hishd : p.1 = "HD"
  · exact Or.inl (decide_eq_true hishd)
  right
  rw [List.all_eq_true]
  intro l hl
  rw [List.any_eq_true]
  have hp2 : p ∈ pre := (List.mem_filter.mp hp).1
  have hp3 : p ∈ (anonAllTypes H svc selO []
      (present.map (fun rt => (rt, recs rt)))).1 := by
    rw [← hpre]
    exact hp2
  obtain ⟨rs, hrs, m2, hls⟩ :=
    anonAllTypes_mem H svc selO _ [] p.1 p.2 hp3
  rw [List.mem_map] at hrs
  obtain ⟨rt0, hrt0, hpair⟩ := hrs
  rw [Prod.mk.injEq] at hpair
  obtain ⟨hrt0e, hrse⟩ := hpair
  subst hrt0e
  subst hrse
  have hkey : p.1 ∈ RECORD_TYPE_KEYS := by
    rw [hpres] at hrt0
    exact (List.mem_filter.mp hrt0).1
  rw [hls] at hl
  obtain ⟨r, hr, hcont, hfl⟩ := anonFilterPass_mem H svc selO _ m2 l hl
  obtain ⟨hrrt, hrfields⟩ := hf p.1 hkey r hr
  rw [hrrt] at hcont
  have hmemu : get_usi p.1 r.fields ∈ selO := by simpa using hcont
  obtain ⟨rhd, hrhd, hlen2, hsome⟩ := hcover _ hmemu
  rw [get_usi_eq] at hsome
  by_cases h1r : 1 < r.fields.length
  swap
  · rw [if_neg h1r] at hsome
    simp at hsome
  rw [if_pos h1r] at hsome
  have heq1 : rhd.fields.getD 1 "" = r.fields.getD 1 "" :=
    Option.some.inj hsome
  have hfl2 : fieldOne l = r.fields.getD 1 "" := by
    rw [hfl, fieldOne_eq, ← hrfields]
  have hkeyHD : "HD" ∈ RECORD_TYPE_KEYS := by decide
  obtain ⟨hrhdrt, hrhdfields⟩ := hf "HD" hkeyHD rhd hrhd
  have hcontHD : selO.contains (get_usi rhd.rt rhd.fields) = true := by
    rw [hrhdrt, get_usi_eq, if_pos (by omega : 1 < rhd.fields.length),
      heq1]
    have hgr : get_usi p.1 r.fields = some (r.fields.getD 1 "") := by
      rw [get_usi_eq, if_pos h1r]
    rw [hgr] at hmemu
    simpa using hmemu
  have hHDpres : "HD" ∈ present := by
    rw [hpres, List.mem_filter]
    exact ⟨hkeyHD, by simpa using hHD⟩
  obtain ⟨m3, hHDout⟩ := anonAllTypes_keep H svc selO
    (present.map (fun rt => (rt, recs rt))) [] "HD" (recs "HD")
    (List.mem_map_of_mem _ hHDpres)
  obtain ⟨hlHD, hlHDmem, hlHDf⟩ := anonFilterPass_keep H svc selO
    (recs "HD") m3 rhd hrhd hcontHD
  have hne : ¬((anonFilterPass H svc selO m3 (recs "HD")).1.isEmpty =
      true) := by
    intro hemp
    rw [List.isEmpty_iff] at hemp
    rw [hemp] at hlHDmem
    cases hlHDmem
  have hHDfilter : ("HD", (anonFilterPass H svc selO m3 (recs "HD")).1) ∈
      pre.filter (fun p => ¬ p.2.isEmpty) := by
    rw [List.mem_filter]
    constructor
    · rw [hpre]
      exact hHDout
    · simpa using hne
  have hlookup : (pre.filter (fun p => ¬ p.2.isEmpty)).lookup "HD" =
      some (anonFilterPass H svc selO m3 (recs "HD")).1 :=
    nodup_lookup hnodup hHDfilter
  refine ⟨hlHD, ?_, ?_⟩
  · rw [hlookup]
    simpa using hlHDmem
  · apply decide_eq_true
    rw [hlHDf, fieldOne_eq, ← hrhdfields, heq1, hfl2]
/-- **C2** (amended): if every record is faithfully parsed from its raw
line, the set-iteration orderings are permutations, and every
identifier appearing in a CO, HS or SC record of the dataset also
appears in some HD record of the dataset (with the identifier field
present), then the referential-integrity property claimed by the spec
holds of the pipeline output: every line of every auxiliary output file
carries an identifier that also appears in some line of the HD output
file. -/
theorem C2_refint_of_hd_coverage (recs : String → List RawRecord)
    (svc : String) (count : Int) (D : Draws) (H : PyHash)
    (out : List (String × List String))
    (hf : ∀ rt ∈ RECORD_TYPE_KEYS, ∀ r ∈ recs rt,
      r.rt = rt ∧ r.fields = (parse_dat_line r.raw).2)
    (hordCO : ∀ l, (D.ordCO l).Perm l)
    (hordHS : ∀ l, (D.ordHS l).Perm l)
    (hordSC : ∀ l, (D.ordSC l).Perm l)
    (hcov : ∀ rt ∈ (["CO", "HS", "SC"] : List String), ∀ r ∈ recs rt,
      hdCovers recs (get_usi rt r.fields))
    (hrun : extract_service_core recs svc count D H = .ok out) :
    refIntactOk out = true := by
  simp only [extract_service_core] at hrun
  split at hrun
  · cases hrun
    rfl
  · rename_i hHD
    split at hrun
    · cases hrun
    · rename_i sel hsel
      injection hrun with hout
      subst hout
      exact outPass_refint recs svc H _ _ hf rfl hHD
        (selO_cover recs count D sel hordCO hordHS hordSC hsel hcov)
/-- Closed instance of the amended C2 theorem: a one-HD-record dataset
(identifier `U1`, status `A`), count 2, identity orderings, the concrete
hash model; the output is referentially intact. -/
theorem C2_refint_witness :
    (∀ rt ∈ (["CO", "HS", "SC"] : List String), ∀ r ∈ recsC2W rt,
      hdCovers recsC2W (get_usi rt r.fields)) ∧
    refIntactOk [("HD", ["HD|U1|X|X|A1QSG|A"])] = true :=
  ⟨by decide,
    C2_refint_of_hd_coverage recsC2W "HA" 2 DC2W HM
      [("HD", ["HD|U1|X|X|A1QSG|A"])]
      (by decide)
      (fun l => List.Perm.refl l) (fun l => List.Perm.refl l)
      (fun l => List.Perm.refl l)
      (by decide)
      rfl⟩

end ULS
